import Mathlib

/-!
# Json: value model, number lexical form and parser

A shallow embedding of `include/json.hpp` and `src/json.cpp`.

* `std::string` is a `List Char`; a `const_string_it` is the offset of the
  iterator from `begin()`, a natural number, so that an iterator stepped past
  `end()` is still represented.
* `str[index]` on a `std::string` is `charAt`: it gives the stored character
  for `index < size()` and the terminator `'\0'` for `index = size()`.
* `*iterator` is `deref`: reading through an iterator that is not below
  `end()` has no defined result and is reported as `Err.outOfRange`.
* Exceptions are the `Except` monad; loops are recursive functions.
* `JsonObject::operator=` has an empty body and no `return`: its body leaves
  the object as it was and a call of it has no defined result
  (`Err.noReturn`). The productions that `json.cpp` defines with a pointer
  parameter do not call it: their assignment rebinds the parameter.
* Integers of a given width hold values modulo `2 ^ bits` (`IntT.wrap`); the
  floating-point arithmetic of `asDecimal` is taken exactly, in `ℚ`.
-/

namespace Json

/-- The failures a call can end in. `BadNumberException` and `ParsingException`
are the two exception classes of the source, carrying the text handed to their
constructor. `outOfRange` is a read through an iterator at or beyond `end()`.
`noReturn` is control flowing off the end of a function that is declared to
return a value: the call has no defined result.
`fuel` is the embedding running out of the budget of a recursive function; no
call of `JsonNumber.assert`, `JsonNumber.asDecimal` or `Parser.parse` ends in
it (`assert_ne_fuel`, `asDecimal_ne_fuel`, `parse_ne_fuel`). -/
inductive Err where
  | BadNumberException (str : String)
  | ParsingException (information : String)
  | outOfRange
  | noReturn
  | fuel
  deriving DecidableEq, Repr

/-- The text `what()` reports: the class's default message followed by what
the constructor appended. -/
def Err.what : Err → String
  | .BadNumberException str => "Unable to convert string to number" ++ str
  | .ParsingException information =>
      "JSON parsing error; unable to parse JSON" ++ "\n" ++ information
  | .outOfRange => ""
  | .noReturn => ""
  | .fuel => ""

/-! ## Value model -/

/-- Embeds `class JsonNull {}`. -/
structure JsonNull where
  deriving DecidableEq, Repr

/-- Embeds `class JsonBoolean`, whose only field is `bool value`. -/
structure JsonBoolean where
  value : Bool
  deriving DecidableEq, Repr

/-- Embeds `class JsonNumber`, whose only field is `std::string str`. -/
structure JsonNumber where
  str : List Char
  deriving DecidableEq, Repr

/-- Embeds `class JsonString : public std::string`. -/
abbrev JsonString := List Char

/-- Modelled from the spec: the class template `ChunkedList<T, ChunkSize>` of
`ChunkedList.hpp`, which is not among the sources. The specification (4.1)
describes it as an ordered, 0-indexed sequence of `T` that is created empty
and grows only by append; the chunks are its storage layout. -/
structure ChunkedList (T : Type) (ChunkSize : Nat) where
  elements : List T

/-- Modelled from the spec: the append of a `ChunkedList`, which `parseList`
calls as `emplace`; the new element goes after the ones already stored. -/
def ChunkedList.emplace {T : Type} {ChunkSize : Nat} (self : ChunkedList T ChunkSize)
    (value : T) : ChunkedList T ChunkSize :=
  ⟨self.elements ++ [value]⟩

/-- Modelled from the spec: `size()` of a `ChunkedList`, the number of elements
appended so far. -/
def ChunkedList.size {T : Type} {ChunkSize : Nat} (self : ChunkedList T ChunkSize) : Nat :=
  self.elements.length

/-- Embeds `class JsonObject`, identified with its only field
`std::variant<Null, Boolean, Number, String, List, Map> value`. A `JsonList` is
a `ChunkedList<JsonObject, 32>` and a `JsonMap`
(`std::unordered_map<JsonString, JsonObject>`) is the sequence of its entries. -/
inductive JsonObject where
  | Null (data : JsonNull)
  | Boolean (data : JsonBoolean)
  | Number (data : JsonNumber)
  | String (data : JsonString)
  | List (data : ChunkedList JsonObject 32)
  | Map (data : List (JsonString × JsonObject))

/-- Embeds `class JsonList : public ChunkedList<JsonObject, 32>`. -/
abbrev JsonList := ChunkedList JsonObject 32

/-- Embeds `class JsonMap : public std::unordered_map<JsonString, JsonObject>`. -/
abbrev JsonMap := List (JsonString × JsonObject)

/-- The six type aliases `IS_JSON_TYPE` admits as a template argument. -/
inductive TypeAlias where
  | Null
  | Boolean
  | Number
  | String
  | List
  | Map
  deriving DecidableEq, Repr

/-- The class a type alias of `JsonObject` stands for. -/
def TypeAlias.Data : TypeAlias → Type
  | .Null => JsonNull
  | .Boolean => JsonBoolean
  | .Number => JsonNumber
  | .String => JsonString
  | .List => JsonList
  | .Map => JsonMap

namespace JsonObject

/-- Embeds `JsonObject::JsonObject() = default`: `value{}` holds the first
alternative, `Null`. -/
def default : JsonObject := .Null {}

/-- Embeds `template<typename T> JsonObject::JsonObject(T data)`, whose body is
`value = data;`. -/
def ofData : (T : TypeAlias) → T.Data → JsonObject
  | .Null, data => .Null data
  | .Boolean, data => .Boolean data
  | .Number, data => .Number data
  | .String, data => .String data
  | .List, data => .List data
  | .Map, data => .Map data

/-- Embeds `template<typename T> T *JsonObject::as()`, which is
`std::get_if<T>(&value)`: the payload when `T` is the active alternative, the
null pointer (`none`) otherwise. -/
def as : (T : TypeAlias) → JsonObject → Option T.Data
  | .Null, .Null data => some data
  | .Boolean, .Boolean data => some data
  | .Number, .Number data => some data
  | .String, .String data => some data
  | .List, .List data => some data
  | .Map, .Map data => some data
  | _, _ => none

/-- The body of `template<typename T> JsonObject &JsonObject::operator=(T data)`:
it is empty, so when control reaches its closing brace the object is as it was
before the call; `T` is not restricted by a `static_assert` here. -/
def assignBody {T : Type} (self : JsonObject) (_data : T) : JsonObject := self

/-- Embeds `template<typename T> JsonObject &JsonObject::operator=(T data)`. The
function is declared to return `JsonObject &` and has no `return` statement:
after the body (`assignBody`) control flows off its end, and the call has no
defined result. -/
def assign {T : Type} (_self : JsonObject) (_data : T) : Except Err JsonObject :=
  .error .noReturn

end JsonObject

/-! ## Characters -/

/-- Embeds `std::isdigit` on the characters of a `std::string`. -/
def isdigit (c : Char) : Bool := decide (48 ≤ c.toNat) && decide (c.toNat ≤ 57)

/-- Embeds `str[index]` for a `std::string`: the terminator at `size()`. -/
def charAt (str : List Char) (index : Nat) : Char := str.getD index (Char.ofNat 0)

/-- Embeds `c - '0'` as computed in `int`, for a character of the ASCII range
(where `char` is signed, a `char` of `0x80` or more is a negative number). -/
def digitOf (c : Char) : Int := (c.toNat : Int) - 48

/-! ## Number lexical form -/

/-- An integer type the template parameter `IntT` of `asInteger` can stand for:
its width in bits and whether it is signed. -/
structure IntT where
  bits : Nat
  signed : Bool
  deriving DecidableEq, Repr

/-- The type `int`, the default of the template parameter. -/
def IntT.int : IntT := ⟨32, true⟩

/-- The type `unsigned int`. -/
def IntT.unsigned : IntT := ⟨32, false⟩

/-- The largest value of the type. -/
def IntT.max (T : IntT) : Int :=
  if T.signed then 2 ^ (T.bits - 1) - 1 else 2 ^ T.bits - 1

/-- The value an object of the type holds after `x` is stored in it: `x` modulo
`2 ^ bits`, read in two's complement when the type is signed. For an unsigned
type this is the arithmetic the language defines. For a signed type a result
outside the range of the type has no defined value in the source, and the
two's complement reading is a convention of the embedding. -/
def IntT.wrap (T : IntT) (x : Int) : Int :=
  if T.signed then (x + 2 ^ (T.bits - 1)) % 2 ^ T.bits - 2 ^ (T.bits - 1)
  else x % 2 ^ T.bits

namespace JsonNumber

/-- Embeds `template<typename IntT> IntT JsonNumber::asInteger()`: `num` starts
as `str[0] - '0'` and the loop over `i = 1, ..., str.length() - 1` sets
`num = (num * 10) + (str[i] - '0')`, each value being stored in an `IntT`. -/
def asInteger (T : IntT) (self : JsonNumber) : Int :=
  (self.str.drop 1).foldl (fun num c => T.wrap (num * 10 + digitOf c))
    (T.wrap (digitOf (charAt self.str 0)))

/-- Embeds `JsonNumber::asString`. -/
def asString (self : JsonNumber) : List Char := self.str

/-- The places of `JsonNumber::assert` control can be at: the three loops and
the two labels. -/
inductive AssertLabel where
  | integerLoop
  | exponentLabel
  | exponentLoop
  | decimalLabel
  | decimalLoop
  deriving DecidableEq, Repr

/-- Embeds the body of `JsonNumber::assert` from the first loop on, one case
per place, `index` being the local of that name. Leaving a loop falls through
to the label written below it in the source; `throw BadNumberException()` is
the error with nothing appended. -/
def assertFrom (str : List Char) : Nat → AssertLabel → Nat → Except Err Unit
  | 0, _, _ => .error .fuel
  | fuel + 1, .integerLoop, index =>
      if index < str.length then
        if charAt str index = '.' then assertFrom str fuel .decimalLabel (index + 1)
        else if charAt str index = 'e' then assertFrom str fuel .exponentLabel (index + 1)
        else if isdigit (charAt str index) then assertFrom str fuel .integerLoop (index + 1)
        else .error (.BadNumberException "")
      else assertFrom str fuel .exponentLabel index
  | fuel + 1, .exponentLabel, index =>
      if index ≥ str.length then .error (.BadNumberException "")
      else if charAt str index = '-' ∨ charAt str index = '+' then
        assertFrom str fuel .exponentLoop (index + 1)
      else assertFrom str fuel .exponentLoop index
  | fuel + 1, .exponentLoop, index =>
      if index < str.length then
        if isdigit (charAt str index) then assertFrom str fuel .exponentLoop (index + 1)
        else .error (.BadNumberException "")
      else assertFrom str fuel .decimalLabel index
  | fuel + 1, .decimalLabel, index =>
      if index ≥ str.length ∨ isdigit (charAt str index) = false then
        .error (.BadNumberException "")
      else assertFrom str fuel .decimalLoop (index + 1)
  | fuel + 1, .decimalLoop, index =>
      if index < str.length then
        if charAt str index = 'e' then assertFrom str fuel .exponentLabel index
        else if isdigit (charAt str index) then assertFrom str fuel .decimalLoop (index + 1)
        else .error (.BadNumberException "")
      else .ok ()

/-- Embeds `constexpr void JsonNumber::assert()`: `.ok ()` is a normal return.
The budget given to `assertFrom` is never used up (`assert_ne_fuel`). -/
def assert (self : JsonNumber) : Except Err Unit :=
  if self.str.isEmpty then .error (.BadNumberException "Expected ")
  else
    assertFrom self.str (self.str.length + 8) .integerLoop
      (if charAt self.str 0 = '-' then 1 else 0)

/-- A bound on the steps `assertFrom` still takes from a place of `assert` in a
string of length `len`. -/
def assertRank (len : Nat) : AssertLabel → Nat → Nat
  | .integerLoop, index => (len - index) + 6
  | .exponentLabel, index => (len - index) + 3
  | .exponentLoop, index => (len - index) + 2
  | .decimalLabel, index => if index < len then (len - index) + 5 else 1
  | .decimalLoop, index => (len - index) + 4

/-- The block under `exponentLabel` in `JsonNumber::asDecimal`, entered with
`index` at the letter `e`: an optional sign, the first exponent digit, the loop
`exponent = (exponent * 10) + (str[index] - '0')` over the rest of the string,
and `std::pow(neg ? -num : num, negEx ? -exponent : exponent)`. The exponent is
a `double` holding an integer; the power is taken in exact arithmetic (for a
zero base and a negative exponent `std::pow` gives an infinity, the rational
power gives `0`). -/
def asDecimalExponentLabel (str : List Char) (neg : Bool) (num : ℚ) (index : Nat) : ℚ :=
  let negEx : Bool := decide (charAt str (index + 1) = '-')
  let index :=
    if charAt str (index + 1) = '+' ∨ charAt str (index + 1) = '-' then index + 2 else index + 1
  let exponent : Int :=
    (str.drop (index + 1)).foldl (fun exponent c => exponent * 10 + digitOf c)
      (digitOf (charAt str index))
  (if neg then -num else num) ^ (if negEx then -exponent else exponent)

/-- The loop under `decimalLabel` in `JsonNumber::asDecimal` and the two
statements after it; `str.length() - 1` is computed where the string is not
empty. -/
def asDecimalDecimalLoop (str : List Char) (neg : Bool) : Nat → Nat → ℚ → ℚ → Except Err ℚ
  | 0, _, _, _ => .error .fuel
  | fuel + 1, index, num, unit =>
      if index < str.length - 1 then
        if charAt str index = 'e' then .ok (asDecimalExponentLabel str neg num index)
        else
          asDecimalDecimalLoop str neg fuel (index + 1)
            (num + (digitOf (charAt str index) : ℚ) / unit) (unit * 10)
      else
        let num := num + (digitOf (charAt str index) : ℚ) / unit
        .ok (if neg then -num else num)

/-- The first loop of `JsonNumber::asDecimal` and the `return num;` after it. -/
def asDecimalLoop (str : List Char) (neg : Bool) : Nat → Nat → ℚ → Except Err ℚ
  | 0, _, _ => .error .fuel
  | fuel + 1, index, num =>
      if index < str.length then
        if charAt str index = 'e' then .ok (asDecimalExponentLabel str neg num index)
        else if charAt str index = '.' then
          asDecimalDecimalLoop str neg (str.length + 1) (index + 1) num 10
        else asDecimalLoop str neg fuel (index + 1) (num * 10 + (digitOf (charAt str index) : ℚ))
      else .ok num

/-- Embeds `template<typename DecimalT> DecimalT JsonNumber::asDecimal()` with
the arithmetic of `DecimalT` and `double` taken exactly, in the rationals.
Every `str[index]` it evaluates has `index` at most `size()`, and the budget
of its loops is never used up (`asDecimal_ne_fuel`), so it always returns a
number. -/
def asDecimal (self : JsonNumber) : Except Err ℚ :=
  let neg : Bool := decide (charAt self.str 0 = '-')
  let index := if neg then 1 else 0
  asDecimalLoop self.str neg (self.str.length + 1) (index + 1)
    (digitOf (charAt self.str index) : ℚ)

end JsonNumber

/-! ## Parser -/

namespace Parser

/-- Embeds `*iterator` for an iterator at offset `it` of `s`. -/
def deref (s : List Char) (it : Nat) : Except Err Char :=
  match s[it]? with
  | some c => .ok c
  | none => .error .outOfRange

/-- Embeds `Parser::isWhitespaceOrComma`. -/
def isWhitespaceOrComma (c : Char) : Bool :=
  c == ',' || c == ' ' || c == '\t' || c == '\n' || c == '\r'

/-- Embeds `Parser::isWhitespace`. -/
def isWhitespace (c : Char) : Bool :=
  c == ' ' || c == '\t' || c == '\n' || c == '\r'

/-- The loop of `Parser::findFirstNonWhitespace`, giving the iterator as the
loop leaves it and the character returned. -/
def findFirstNonWhitespaceLoop (s : List Char) : Nat → Nat → Except Err (Nat × Char)
  | 0, _ => .error .fuel
  | fuel + 1, it =>
      if it ≠ s.length then
        match deref s it with
        | .error e => .error e
        | .ok c =>
            if isWhitespace c = false then .ok (it, c)
            else findFirstNonWhitespaceLoop s fuel (it + 1)
      else .ok (it, Char.ofNat 0)

/-- Embeds `Parser::findFirstNonWhitespace`. The loop runs once per character
from the iterator to `end`, so `s.length + 1` rounds are enough. -/
def findFirstNonWhitespace (s : List Char) (it : Nat) : Except Err (Nat × Char) :=
  findFirstNonWhitespaceLoop s (s.length + 1) it

/-- The loop of `Parser::iteratorAligns` over the characters of the keyword
still to be matched, ending in the `++iterator; return true;` after it. -/
def iteratorAlignsLoop (s : List Char) : List Char → Nat → Except Err (Nat × Bool)
  | [], it => .ok (it + 1, true)
  | k :: ks, it =>
      match deref s it with
      | .error e => .error e
      | .ok c => if c = k then iteratorAlignsLoop s ks (it + 1) else .ok (it, false)

/-- Embeds `Parser::iteratorAligns`, giving the iterator afterwards and the
returned flag. `end - iterator` is compared as an unsigned number, so the
length test can only hold for an iterator that is not beyond `end`. -/
def iteratorAligns (s : List Char) (it : Nat) (keyword : List Char) :
    Except Err (Nat × Bool) :=
  if it ≤ s.length ∧ keyword.length > s.length - it then .ok (it, false)
  else iteratorAlignsLoop s keyword it

/-- Embeds the statement `JsonObject = new JsonObject(..);` of the productions
that `json.cpp` defines with the parameter `Json::JsonObject *JsonObject`
(`parseTrue`, `parseFalse`, `parseNumber`, `parseString`, `parseList`,
`parseMap`): it points the parameter, a local of the production, to the new
object, and the object of the caller is as it was. -/
def assignPointer {T : Type} (obj : JsonObject) (_pointee : T) : JsonObject := obj

/-- Embeds `Parser::parseNull`, which `json.cpp` defines with the parameter
`Json::JsonObject &JsonObject`: its `JsonObject = JsonNull();` is a call of
`JsonObject::operator=`. -/
def parseNull (s : List Char) (it : Nat) (obj : JsonObject) : Except Err (Nat × JsonObject) :=
  match iteratorAligns s it "null".toList with
  | .error e => .error e
  | .ok (it, true) =>
      match obj.assign JsonNull.mk with
      | .error e => .error e
      | .ok obj => .ok (it, obj)
  | .ok (_, false) => .error (.ParsingException "Unknown value")

/-- Embeds `Parser::parseTrue`; the object the parameter is pointed to is the
one `new JsonObject{true}` is written to build. -/
def parseTrue (s : List Char) (it : Nat) (obj : JsonObject) : Except Err (Nat × JsonObject) :=
  match iteratorAligns s it "true".toList with
  | .error e => .error e
  | .ok (it, true) => .ok (it, assignPointer obj (JsonObject.ofData .Boolean ⟨true⟩))
  | .ok (_, false) => .error (.ParsingException "Unknown value")

/-- Embeds `Parser::parseFalse`; the object the parameter is pointed to is the
one `new JsonObject{new JsonBoolean{false}}` is written to build. -/
def parseFalse (s : List Char) (it : Nat) (obj : JsonObject) : Except Err (Nat × JsonObject) :=
  match iteratorAligns s it "false".toList with
  | .error e => .error e
  | .ok (it, true) => .ok (it, assignPointer obj (JsonObject.ofData .Boolean ⟨false⟩))
  | .ok (_, false) => .error (.ParsingException "Unknown value")

/-- The text of `MALFORMED_NUMBER` in `Parser::parseNumber`. -/
def MALFORMED_NUMBER : String := "Malformed number, unknown token found when parsing number"

/-- The `do ... while (iterator != end)` loop under `exponentLabel` in
`Parser::parseNumber`. -/
def parseNumberExponentLoop (s : List Char) : Nat → Nat → List Char → Except Err (Nat × List Char)
  | 0, _, _ => .error .fuel
  | fuel + 1, it, str =>
      match deref s it with
      | .error e => .error e
      | .ok c =>
          let str := if isdigit c then str ++ [c] else if c = 'e' then str ++ ['e'] else str
          if it + 1 ≠ s.length then parseNumberExponentLoop s fuel (it + 1) str
          else .ok (it + 1, str)

/-- The block under `exponentLabel` in `Parser::parseNumber`, entered with the
iterator and `str` as they are at the jump. Case `'-'` of the `switch` falls
through to case `'+'`. The function returns after its loop without assigning
to the object. -/
def parseNumberExponentLabel (s : List Char) (it : Nat) (str : List Char) :
    Except Err (Nat × List Char) :=
  match deref s (it + 1) with
  | .error e => .error e
  | .ok c =>
      let str := if c = '-' then str ++ ['-'] else str
      let it := if c = '-' ∨ c = '+' then it + 2 else it + 1
      if it = s.length then .error (.ParsingException "Malformed number")
      else parseNumberExponentLoop s (s.length + 1) it str

/-- The `for` loop under `decimalLabel` in `Parser::parseNumber`; when it ends
control falls through to `exponentLabel`. At a whitespace or comma the
parameter is pointed to a new object and the loop goes on. -/
def parseNumberDecimalLoop (s : List Char) :
    Nat → Nat → List Char → JsonObject → Except Err (Nat × List Char × JsonObject)
  | 0, _, _, _ => .error .fuel
  | fuel + 1, it, str, obj =>
      if it ≠ s.length then
        match deref s it with
        | .error e => .error e
        | .ok c =>
            if isdigit c then parseNumberDecimalLoop s fuel (it + 1) (str ++ [c]) obj
            else if c = 'e' then
              match parseNumberExponentLabel s it str with
              | .error e => .error e
              | .ok (it, str) => .ok (it, str, obj)
            else if isWhitespaceOrComma c then
              parseNumberDecimalLoop s fuel (it + 1) str
                (assignPointer obj (JsonObject.ofData .Number ⟨str⟩))
            else .error (.ParsingException MALFORMED_NUMBER)
      else
        match parseNumberExponentLabel s it str with
        | .error e => .error e
        | .ok (it, str) => .ok (it, str, obj)

/-- The block under `decimalLabel` in `Parser::parseNumber`: `*++iterator` must
be a digit. -/
def parseNumberDecimalLabel (s : List Char) (it : Nat) (str : List Char) (obj : JsonObject) :
    Except Err (Nat × List Char × JsonObject) :=
  match deref s (it + 1) with
  | .error e => .error e
  | .ok c =>
      if isdigit c = false then .error (.ParsingException MALFORMED_NUMBER)
      else parseNumberDecimalLoop s (s.length + 1) (it + 2) (str ++ ['.', c]) obj

/-- The first loop of `Parser::parseNumber`; when it ends control falls through
to `decimalLabel`. -/
def parseNumberLoop (s : List Char) :
    Nat → Nat → List Char → JsonObject → Except Err (Nat × List Char × JsonObject)
  | 0, _, _, _ => .error .fuel
  | fuel + 1, it, str, obj =>
      if it ≠ s.length then
        match deref s it with
        | .error e => .error e
        | .ok c =>
            if c = '.' then parseNumberDecimalLabel s it str obj
            else if c = 'e' then
              match parseNumberExponentLabel s it str with
              | .error e => .error e
              | .ok (it, str) => .ok (it, str, obj)
            else if isdigit c then parseNumberLoop s fuel (it + 1) (str ++ [c]) obj
            else .error (.ParsingException MALFORMED_NUMBER)
      else parseNumberDecimalLabel s it str obj

/-- Embeds `Parser::parseNumber`. -/
def parseNumber (s : List Char) (it : Nat) (obj : JsonObject) : Except Err (Nat × JsonObject) :=
  match parseNumberLoop s (s.length + 1) it [] obj with
  | .error e => .error e
  | .ok (it, _, obj) => .ok (it, obj)

/-- The loop of `Parser::parseString`, giving the iterator and `str` at the
`return` of case `'\"'`. -/
def parseStringLoop (s : List Char) : Nat → Nat → Bool → List Char → Except Err (Nat × List Char)
  | 0, _, _, _ => .error .fuel
  | fuel + 1, it, backslash, str =>
      if it ≠ s.length then
        match deref s it with
        | .error e => .error e
        | .ok c =>
            if backslash then parseStringLoop s fuel (it + 1) false (str ++ [c])
            else if c = '\"' then .ok (it, str)
            else if c = '\\' then parseStringLoop s fuel (it + 1) true (str ++ ['\\'])
            else parseStringLoop s fuel (it + 1) false (str ++ [c])
      else .error (.ParsingException "Malformed string")

/-- Embeds `Parser::parseString`: the iterator steps over the opening quote,
the loop collects `str`, and the parameter is pointed to
`new JsonObject(new JsonString(str))`. -/
def parseString (s : List Char) (it : Nat) (obj : JsonObject) : Except Err (Nat × JsonObject) :=
  match parseStringLoop s (s.length + 1) (it + 1) false [] with
  | .error e => .error e
  | .ok (it, str) => .ok (it, assignPointer obj (JsonObject.ofData .String str))

/-- The text of `UNFINISHED_LIST` in `Parser::parseList`. -/
def UNFINISHED_LIST : String := "Unfinished list, expected ] after [ in list"

/-- The `while (*iterator != ']')` loop of `Parser::parseList`, giving the
iterator and the elements of `list` when it ends; `interp` is
`Parser::interpretValue`. Each `element` starts as `JsonObject element;`. -/
def parseListLoop (interp : Nat → JsonObject → Except Err (Nat × JsonObject)) (s : List Char) :
    Nat → Nat → JsonList → Except Err (Nat × JsonList)
  | 0, _, _ => .error .fuel
  | fuel + 1, it, list =>
      match deref s it with
      | .error e => .error e
      | .ok c =>
          if c ≠ ']' then
            match findFirstNonWhitespace s it with
            | .error e => .error e
            | .ok (it, c0) =>
                if c0 = Char.ofNat 0 then .error (.ParsingException UNFINISHED_LIST)
                else
                  match interp it JsonObject.default with
                  | .error e => .error e
                  | .ok (it, element) => parseListLoop interp s fuel it (list.emplace element)
          else .ok (it, list)

/-- Embeds `Parser::parseList`. The parameter is pointed to an object built
from the list while it is still empty; the elements go to the `JsonList` the function allocated. -/
def parseList (interp : Nat → JsonObject → Except Err (Nat × JsonObject)) (s : List Char)
    (it : Nat) (obj : JsonObject) : Except Err (Nat × JsonObject) :=
  match findFirstNonWhitespace s (it + 1) with
  | .error e => .error e
  | .ok (it, c0) =>
      if c0 = Char.ofNat 0 then .error (.ParsingException UNFINISHED_LIST)
      else
        let obj := assignPointer obj (JsonObject.ofData .List ⟨[]⟩)
        match parseListLoop interp s (s.length + 1) it ⟨[]⟩ with
        | .error e => .error e
        | .ok (it, _) => .ok (it, obj)

/-- The text of `UNFINISHED_MAP` in `Parser::parseMap`. -/
def UNFINISHED_MAP : String := "Unfinished map, expected \x7d after \x7b in map"

/-- The text of `INVALID_KEY` in `Parser::parseMap`. -/
def INVALID_KEY : String := "Expected \" in map key"

/-- The text of `EXPECTED_COLON` in `Parser::parseMap`. -/
def EXPECTED_COLON : String := "Expected ':' token after key in map"

/-- The text of `EXPECTED_COMMA` in `Parser::parseMap`. -/
def EXPECTED_COMMA : String := "Expected , after value in map"

/-- The inner `for` loop of `Parser::parseMap`, which collects `key`. It has no
`break` or `return`: it ends when the iterator is `end`. -/
def parseMapKeyLoop (s : List Char) : Nat → Nat → Bool → List Char → Except Err (Nat × List Char)
  | 0, _, _, _ => .error .fuel
  | fuel + 1, it, backslash, key =>
      if it ≠ s.length then
        match deref s it with
        | .error e => .error e
        | .ok c =>
            let key := if backslash then key ++ [c] else key
            if c = '\"' then parseMapKeyLoop s fuel (it + 1) true key
            else if c = '\\' then parseMapKeyLoop s fuel (it + 1) true (key ++ ['\\'])
            else parseMapKeyLoop s fuel (it + 1) false key
      else .ok (it, key)

/-- The block `{ if (*iterator) throw ParsingException(EXPECTED_COMMA); }` in
the outer loop of `Parser::parseMap`, giving the iterator afterwards. -/
def parseMapExpectedComma (s : List Char) (it : Nat) : Except Err Nat :=
  match deref s it with
  | .error e => .error e
  | .ok c =>
      if c ≠ Char.ofNat 0 then .error (.ParsingException EXPECTED_COMMA)
      else .ok it

/-- The statement after the value in the outer loop of `Parser::parseMap`:
`if (!find(..)) if (!find(..) || *iterator != ',') { .. }`, where `find` is
`findFirstNonWhitespace` and the block is `parseMapExpectedComma`, giving the
iterator afterwards. -/
def parseMapAfterValue (s : List Char) (it : Nat) : Except Err Nat :=
  match findFirstNonWhitespace s it with
  | .error e => .error e
  | .ok (it, c0) =>
      if c0 = Char.ofNat 0 then
        match findFirstNonWhitespace s it with
        | .error e => .error e
        | .ok (it, c1) =>
            if c1 = Char.ofNat 0 then parseMapExpectedComma s it
            else
              match deref s it with
              | .error e => .error e
              | .ok c => if c ≠ ',' then parseMapExpectedComma s it else .ok it
      else .ok it

/-- The outer `for` loop of `Parser::parseMap`, giving the iterator when the
function returns; `interp` is `Parser::interpretValue`. The value is parsed
into an object of its own and nothing is inserted into the map. -/
def parseMapLoop (interp : Nat → JsonObject → Except Err (Nat × JsonObject)) (s : List Char) :
    Nat → Nat → Except Err Nat
  | 0, _ => .error .fuel
  | fuel + 1, it =>
      if it ≠ s.length then
        match deref s it with
        | .error e => .error e
        | .ok c =>
            if c = '\x7d' then .ok it
            else if c ≠ '\"' then .error (.ParsingException INVALID_KEY)
            else
              match parseMapKeyLoop s (s.length + 1) it false [] with
              | .error e => .error e
              | .ok (it, _) =>
                  match findFirstNonWhitespace s it with
                  | .error e => .error e
                  | .ok (it, c0) =>
                      if c0 = Char.ofNat 0 then .error (.ParsingException EXPECTED_COLON)
                      else
                        match deref s it with
                        | .error e => .error e
                        | .ok c1 =>
                            if c1 ≠ ':' then .error (.ParsingException EXPECTED_COLON)
                            else
                              match interp it JsonObject.default with
                              | .error e => .error e
                              | .ok (it, _) =>
                                  match parseMapAfterValue s it with
                                  | .error e => .error e
                                  | .ok it => parseMapLoop interp s fuel (it + 1)
      else .ok it

/-- Embeds `Parser::parseMap`. The parameter is pointed to an object built
from the map while it is still empty. -/
def parseMap (interp : Nat → JsonObject → Except Err (Nat × JsonObject)) (s : List Char)
    (it : Nat) (obj : JsonObject) : Except Err (Nat × JsonObject) :=
  match findFirstNonWhitespace s (it + 1) with
  | .error e => .error e
  | .ok (it, c0) =>
      if c0 = Char.ofNat 0 then .error (.ParsingException UNFINISHED_MAP)
      else
        let obj := assignPointer obj (JsonObject.ofData .Map [])
        match findFirstNonWhitespace s it with
        | .error e => .error e
        | .ok (it, c1) =>
            if c1 = Char.ofNat 0 then .error (.ParsingException UNFINISHED_MAP)
            else
              match parseMapLoop interp s (s.length + 1) it with
              | .error e => .error e
              | .ok it => .ok (it, obj)

/-- Embeds `Parser::interpretValue`, giving the iterator and the object
afterwards. The first argument bounds the depth of nested calls. -/
def interpretValue (s : List Char) : Nat → Nat → JsonObject → Except Err (Nat × JsonObject)
  | 0, _, _ => .error .fuel
  | fuel + 1, it, obj =>
      match findFirstNonWhitespace s it with
      | .error e => .error e
      | .ok (it, c0) =>
          if c0 = Char.ofNat 0 then .ok (it, obj)
          else
            match deref s it with
            | .error e => .error e
            | .ok c =>
                if c = '\"' then parseString s it obj
                else if c = '\x7b' then parseMap (interpretValue s fuel) s it obj
                else if c = '[' then parseList (interpretValue s fuel) s it obj
                else if c = '-' then parseNumber s it obj
                else if c = 't' then parseTrue s it obj
                else if c = 'f' then parseFalse s it obj
                else if c = 'n' then parseNull s it obj
                else if isdigit c then parseNumber s it obj
                else .error (.ParsingException "Unknown token")

/-- Embeds `Parser::parse`, giving the object afterwards. A nested call of
`interpretValue` starts beyond a character its caller has read, so the depth
is below `jsonString.length + 1` (`parse_ne_fuel`). -/
def parse (obj : JsonObject) (jsonString : String) : Except Err JsonObject :=
  match interpretValue jsonString.toList (jsonString.length + 1) 0 obj with
  | .error e => .error e
  | .ok (_, obj) => .ok obj

end Parser

/-! ## Reference notions of the specification -/

/-- The decimal value of a digit string as the specification words it: the
left-to-right fold `value = value * 10 + digit` starting from `0`. -/
def decimalValue (d : List Char) : Int :=
  d.foldl (fun value c => value * 10 + digitOf c) 0

/-- The sum of `F_j / 10 ^ (k + j)` over the characters `F_0, F_1, ...` of a
digit string: the contribution of fraction digits whose first one stands at
decimal place `k`. -/
def fractionSum (k : Nat) : List Char → ℚ
  | [] => 0
  | c :: rest => (digitOf c : ℚ) / 10 ^ k + fractionSum (k + 1) rest

/-- The value of the fraction digits `F` as the specification words it: the
sum over `k = 1, ..., |F|` of `F_k / 10 ^ k`. -/
def fractionValue (F : List Char) : ℚ := fractionSum 1 F

/-! ## Value model: construction, access, assignment -/

/-- C6: a value constructed from a payload of kind `T` gives that payload back
from `as<T>()` and the null pointer from `as` at every other kind. -/
theorem as_ofData (T : TypeAlias) (p : T.Data) :
    (JsonObject.ofData T p).as T = some p ∧
      ∀ K : TypeAlias, K ≠ T → (JsonObject.ofData T p).as K = none := by
  refine ⟨?_, ?_⟩
  · cases T <;> rfl
  · intro K hK
    cases T <;> cases K <;> first | rfl | exact absurd rfl hK

/-- C6 at a Boolean payload: present as Boolean, absent as Null. -/
theorem as_ofData_witness :
    (JsonObject.ofData .Boolean ⟨true⟩).as .Boolean = some ⟨true⟩ ∧
      (JsonObject.ofData .Boolean ⟨true⟩).as .Null = none :=
  ⟨(as_ofData .Boolean ⟨true⟩).1, (as_ofData .Boolean ⟨true⟩).2 .Null (by decide)⟩

/-- C7, the code at the failing input: assigning the Boolean payload `true` to a
default-constructed value does not store it: when the empty body of `operator=`
ends the value is still Null and `as<Boolean>()` is the null pointer, and the
call, which has no `return`, has no defined result. -/
theorem assign_boolean_to_default_stays_null :
    (JsonObject.default.assignBody (JsonBoolean.mk true)).as .Boolean = none ∧
      (JsonObject.default.assignBody (JsonBoolean.mk true)).as .Null = some JsonNull.mk ∧
      JsonObject.default.assign (JsonBoolean.mk true) = .error .noReturn :=
  ⟨rfl, rfl, rfl⟩

/-! ## Number lexical form: validation -/

namespace JsonNumber

/-- With a budget of at least `assertRank`, `assertFrom` ends in a return or a
`BadNumberException`, never out of budget. -/
theorem assertFrom_ne_fuel (str : List Char) :
    ∀ (fuel : Nat) (label : AssertLabel) (index : Nat),
      assertRank str.length label index ≤ fuel →
      assertFrom str fuel label index ≠ .error .fuel := by
  intro fuel
  induction fuel with
  | zero =>
      intro label index h
      cases label <;> simp only [assertRank] at h <;> first | omega | (split at h <;> omega)
  | succ f ih =>
      intro label index h
      cases label <;> simp only [assertRank] at h <;> rw [assertFrom] <;>
        split_ifs at h ⊢ <;>
        first
          | (intro hc; cases hc)
          | (apply ih; simp only [assertRank]; split_ifs <;> omega)
          | (apply ih; simp only [assertRank]; omega)

/-- The budget `assert` gives `assertFrom` is never used up: `assert` ends in a
normal return or in a `BadNumberException`. -/
theorem assert_ne_fuel (self : JsonNumber) : self.assert ≠ .error .fuel := by
  unfold assert
  split_ifs
  · intro hc; cases hc
  · apply assertFrom_ne_fuel; simp only [assertRank]; omega
  · apply assertFrom_ne_fuel; simp only [assertRank]; omega

/-- A decimal digit is none of the point, the letter `e` and the minus sign. -/
theorem ne_of_isdigit (c : Char) (h : isdigit c = true) : c ≠ '.' ∧ c ≠ 'e' ∧ c ≠ '-' := by
  simp only [isdigit, Bool.and_eq_true, decide_eq_true_eq] at h
  refine ⟨?_, ?_, ?_⟩ <;> (rintro rfl; revert h; decide)

/-- From a position from which only digits follow, the first loop of `assert`
runs to the end of the string and falls into `exponentLabel`, which throws. -/
theorem assertFrom_integerLoop_digits (str : List Char) :
    ∀ (fuel index : Nat),
      (∀ i, index ≤ i → i < str.length → isdigit (charAt str i) = true) →
      str.length - index + 2 ≤ fuel →
      assertFrom str fuel .integerLoop index = .error (.BadNumberException "") := by
  intro fuel
  induction fuel with
  | zero => intro index _ h; omega
  | succ f ih =>
      intro index hd h
      rw [assertFrom]
      by_cases hi : index < str.length
      · have hc := hd index (le_refl _) hi
        obtain ⟨h1, h2, _⟩ := ne_of_isdigit _ hc
        rw [if_pos hi, if_neg h1, if_neg h2, if_pos hc]
        exact ih (index + 1) (fun i hi1 hi2 => hd i (by omega) hi2) (by omega)
      · rw [if_neg hi]
        obtain ⟨g, rfl⟩ : ∃ g, f = g + 1 := ⟨f - 1, by omega⟩
        rw [assertFrom, if_pos (by omega)]

/-- No string of decimal digits alone passes `assert`. -/
theorem assert_rejects_digits (d : List Char) (hne : d ≠ [])
    (hd : ∀ c ∈ d, isdigit c = true) :
    JsonNumber.assert ⟨d⟩ = .error (.BadNumberException "") := by
  have hall : ∀ i, 0 ≤ i → i < d.length → isdigit (charAt d i) = true := by
    intro i _ hi
    rw [charAt, List.getD_eq_getElem _ _ hi]
    exact hd _ (List.getElem_mem hi)
  have h0 : charAt d 0 ≠ '-' :=
    (ne_of_isdigit _ (hall 0 (le_refl _) (List.length_pos.mpr hne))).2.2
  unfold assert
  rw [if_neg (by simpa using hne), if_neg h0]
  exact assertFrom_integerLoop_digits d _ 0 hall (by simp)

end JsonNumber

/-- C8, the code at the failing inputs: `assert` throws `BadNumberException` on
the grammar-valid numerals `0`, `123`, `1e5` and `-12.50e+3`. -/
theorem assert_rejects_valid_numerals :
    JsonNumber.assert ⟨"0".toList⟩ = .error (.BadNumberException "") ∧
      JsonNumber.assert ⟨"123".toList⟩ = .error (.BadNumberException "") ∧
      JsonNumber.assert ⟨"1e5".toList⟩ = .error (.BadNumberException "") ∧
      JsonNumber.assert ⟨"-12.50e+3".toList⟩ = .error (.BadNumberException "") :=
  ⟨rfl, rfl, rfl, rfl⟩

/-- C9, the code at the failing inputs: `assert` returns normally on `.5` and
`-.5`, which have no digit before the point. -/
theorem assert_accepts_missing_integer_part :
    JsonNumber.assert ⟨".5".toList⟩ = .ok () ∧ JsonNumber.assert ⟨"-.5".toList⟩ = .ok () :=
  ⟨rfl, rfl⟩

/-! ## Parser: the scenarios of the specification -/

/-- C1, the code at the failing input: `parse` of `true` into a fresh value
returns normally and the root is still Null, not Boolean. -/
theorem parse_true_root_stays_null :
    Parser.parse JsonObject.default "true" = .ok (JsonObject.Null JsonNull.mk) ∧
      (JsonObject.Null JsonNull.mk).as .Boolean = none :=
  ⟨rfl, rfl⟩

/-- C2, the code at the failing input: `parse` of `  [1, 2.5, -3e2]` throws the
malformed-number `ParsingException`. -/
theorem parse_number_list_throws :
    Parser.parse JsonObject.default "  [1, 2.5, -3e2]" =
      .error (.ParsingException Parser.MALFORMED_NUMBER) :=
  rfl

/-- C3, the code at the failing input: `parse` of the object text with keys `a`
and `b` throws the expected-colon `ParsingException`. -/
theorem parse_object_throws :
    Parser.parse JsonObject.default "\x7b\"a\":true,\"b\":[1,2]\x7d" =
      .error (.ParsingException Parser.EXPECTED_COLON) :=
  rfl

/-! ## Number lexical form: conversion to an integer -/

/-- A value from `0` to the largest value of the type is stored unchanged. -/
theorem IntT.wrap_of_fits (T : IntT) (x : Int) (hbits : 0 < T.bits) (h0 : 0 ≤ x)
    (h1 : x ≤ T.max) : T.wrap x = x := by
  unfold IntT.max at h1
  unfold IntT.wrap
  have hpow : (2 : Int) ^ T.bits = 2 * 2 ^ (T.bits - 1) := by
    obtain ⟨k, hk⟩ : ∃ k, T.bits = k + 1 := ⟨T.bits - 1, by omega⟩
    rw [hk]
    simp [pow_succ, mul_comm]
  have hpos : (0 : Int) < 2 ^ (T.bits - 1) := by positivity
  cases hs : T.signed with
  | true =>
      simp only [hs, if_true] at h1 ⊢
      rw [Int.emod_eq_of_lt (by omega) (by omega)]
      omega
  | false =>
      simp only [hs, Bool.false_eq_true, if_false] at h1 ⊢
      exact Int.emod_eq_of_lt h0 (by omega)

/-- The digit of a decimal digit character is not negative. -/
theorem digitOf_nonneg (c : Char) (h : isdigit c = true) : 0 ≤ digitOf c := by
  simp only [isdigit, Bool.and_eq_true, decide_eq_true_eq] at h
  unfold digitOf
  omega

/-- Accumulating digits never lowers the accumulated value. -/
theorem le_foldl_digits (l : List Char) (acc : Int) (h0 : 0 ≤ acc)
    (hd : ∀ c ∈ l, isdigit c = true) :
    acc ≤ l.foldl (fun value c => value * 10 + digitOf c) acc := by
  induction l generalizing acc with
  | nil => simp
  | cons c t ih =>
      have hc := digitOf_nonneg c (hd c (List.mem_cons_self c t))
      have ht : ∀ x ∈ t, isdigit x = true := fun x hx => hd x (List.mem_cons_of_mem c hx)
      have := ih (acc * 10 + digitOf c) (by omega) ht
      simp only [List.foldl_cons]
      omega

/-- The loop of `asInteger` in the arithmetic of `T` agrees with the exact fold
as long as the exact result fits. -/
theorem foldl_wrap_eq (T : IntT) (hbits : 0 < T.bits) (l : List Char) (acc : Int)
    (h0 : 0 ≤ acc) (hd : ∀ c ∈ l, isdigit c = true)
    (hfit : l.foldl (fun value c => value * 10 + digitOf c) acc ≤ T.max) :
    l.foldl (fun num c => T.wrap (num * 10 + digitOf c)) acc =
      l.foldl (fun value c => value * 10 + digitOf c) acc := by
  induction l generalizing acc with
  | nil => rfl
  | cons c t ih =>
      have hc := digitOf_nonneg c (hd c (List.mem_cons_self c t))
      have ht : ∀ x ∈ t, isdigit x = true := fun x hx => hd x (List.mem_cons_of_mem c hx)
      simp only [List.foldl_cons] at hfit ⊢
      have hle := le_foldl_digits t (acc * 10 + digitOf c) (by omega) ht
      rw [IntT.wrap_of_fits T (acc * 10 + digitOf c) hbits (by omega) (by omega)]
      exact ih (acc * 10 + digitOf c) (by omega) ht hfit

/-- C10: for a non-empty string of decimal digits whose value fits the target
integer type (signed or unsigned, of at least one bit), `asInteger` is the
decimal value of the string, the fold `value = value * 10 + digit` from `0`. -/
theorem asInteger_digits (T : IntT) (d : List Char) (hbits : 0 < T.bits) (hne : d ≠ [])
    (hd : ∀ c ∈ d, isdigit c = true) (hfit : decimalValue d ≤ T.max) :
    JsonNumber.asInteger T ⟨d⟩ = decimalValue d := by
  cases d with
  | nil => exact absurd rfl hne
  | cons c t =>
      have hc := digitOf_nonneg c (hd c (List.mem_cons_self c t))
      have ht : ∀ x ∈ t, isdigit x = true := fun x hx => hd x (List.mem_cons_of_mem c hx)
      simp only [decimalValue, List.foldl_cons, zero_mul, zero_add] at hfit ⊢
      have hle := le_foldl_digits t (digitOf c) hc ht
      simp only [JsonNumber.asInteger, charAt, List.drop_succ_cons, List.drop_zero,
        List.getD_cons_zero]
      rw [IntT.wrap_of_fits T (digitOf c) hbits hc (by omega)]
      exact foldl_wrap_eq T hbits t (digitOf c) hc ht hfit

/-- C10 at `123` converted to `int`, where the result is 123. -/
theorem asInteger_digits_witness :
    JsonNumber.asInteger IntT.int ⟨"123".toList⟩ = decimalValue "123".toList ∧
      decimalValue "123".toList = 123 :=
  ⟨asInteger_digits IntT.int "123".toList (by decide) (by decide) (by decide) (by decide),
    by decide⟩

/-! ## Parser: reading through the iterator -/

namespace Parser

/-- When the text from the iterator on is `c :: t`, reading gives `c`. -/
theorem deref_of_drop (s t : List Char) (it : Nat) (c : Char) (h : s.drop it = c :: t) :
    deref s it = .ok c := by
  have h0 : s[it]? = (s.drop it)[0]? := by simp [List.getElem?_drop]
  simp [deref, h0, h]

/-- When the text from the iterator on is `c :: t`, the text from the next
position on is `t`. -/
theorem drop_succ_of_drop (s t : List Char) (it : Nat) (c : Char) (h : s.drop it = c :: t) :
    s.drop (it + 1) = t := by
  rw [← List.tail_drop, h, List.tail_cons]

/-- When there is text from the iterator on, the iterator is not `end`. -/
theorem ne_length_of_drop (s t : List Char) (it : Nat) (c : Char) (h : s.drop it = c :: t) :
    it ≠ s.length := by
  have := congrArg List.length h
  simp only [List.length_drop, List.length_cons] at this
  omega

/-- From the start of a run `ws` of whitespace that a non-whitespace `c`
follows, the loop of `findFirstNonWhitespace` stops at `c` and returns it. -/
theorem findFirstNonWhitespaceLoop_skip (s : List Char) (c : Char) (rest : List Char)
    (hc : isWhitespace c = false) (ws : List Char) :
    ∀ (it fuel : Nat), s.drop it = ws ++ c :: rest → (∀ x ∈ ws, isWhitespace x = true) →
      ws.length < fuel →
      findFirstNonWhitespaceLoop s fuel it = .ok (it + ws.length, c) := by
  induction ws with
  | nil =>
      intro it fuel hdrop _ hfuel
      obtain ⟨f, rfl⟩ : ∃ f, fuel = f + 1 := ⟨fuel - 1, by simp at hfuel; omega⟩
      rw [List.nil_append] at hdrop
      rw [findFirstNonWhitespaceLoop, if_pos (ne_length_of_drop s rest it c hdrop),
        deref_of_drop s rest it c hdrop]
      simp [hc]
  | cons w ws ih =>
      intro it fuel hdrop hws hfuel
      obtain ⟨f, rfl⟩ : ∃ f, fuel = f + 1 := ⟨fuel - 1, by simp at hfuel; omega⟩
      rw [List.cons_append] at hdrop
      have hw : isWhitespace w = true := hws w (List.mem_cons_self w ws)
      have hrec := ih (it + 1) f (drop_succ_of_drop s _ it w hdrop)
        (fun x hx => hws x (List.mem_cons_of_mem w hx)) (by simp at hfuel; omega)
      rw [findFirstNonWhitespaceLoop, if_pos (ne_length_of_drop s _ it w hdrop),
        deref_of_drop s _ it w hdrop]
      simp only [hw, Bool.true_eq_false, if_false, hrec, List.length_cons]
      congr 2
      omega

/-- With the keyword standing at the iterator, the loop of `iteratorAligns`
matches all of it and leaves the iterator one character beyond its end. -/
theorem iteratorAlignsLoop_match (s rest : List Char) (keyword : List Char) :
    ∀ (it : Nat), s.drop it = keyword ++ rest →
      iteratorAlignsLoop s keyword it = .ok (it + keyword.length + 1, true) := by
  induction keyword with
  | nil => intro it _; simp [iteratorAlignsLoop]
  | cons k ks ih =>
      intro it hdrop
      rw [List.cons_append] at hdrop
      have hrec := ih (it + 1) (drop_succ_of_drop s _ it k hdrop)
      rw [iteratorAlignsLoop, deref_of_drop s _ it k hdrop]
      simp only [if_true, hrec, List.length_cons]
      congr 2
      omega

/-- With the keyword standing at the iterator, `iteratorAligns` returns true
with the iterator one character beyond the keyword's end. -/
theorem iteratorAligns_match (s rest keyword : List Char) (it : Nat)
    (hdrop : s.drop it = keyword ++ rest) :
    iteratorAligns s it keyword = .ok (it + keyword.length + 1, true) := by
  have hlen := congrArg List.length hdrop
  simp only [List.length_drop, List.length_append] at hlen
  rw [iteratorAligns, if_neg (by omega)]
  exact iteratorAlignsLoop_match s rest keyword it hdrop

end Parser

/-! ## Parser: the object is never written -/

namespace Parser

/-- The loop under `decimalLabel` returns the object it was given. -/
theorem parseNumberDecimalLoop_obj (s : List Char) :
    ∀ (fuel it : Nat) (str : List Char) (obj : JsonObject) (r : Nat × List Char × JsonObject),
      parseNumberDecimalLoop s fuel it str obj = .ok r → r.2.2 = obj := by
  intro fuel
  induction fuel with
  | zero => intro it str obj r h; simp [parseNumberDecimalLoop] at h
  | succ f ih =>
      intro it str obj r h
      rw [parseNumberDecimalLoop] at h
      repeat' split at h
      all_goals first
        | exact ih _ _ _ _ h
        | (cases h; rfl)
        | simp at h

/-- The first loop of `parseNumber` returns the object it was given. -/
theorem parseNumberLoop_obj (s : List Char) :
    ∀ (fuel it : Nat) (str : List Char) (obj : JsonObject) (r : Nat × List Char × JsonObject),
      parseNumberLoop s fuel it str obj = .ok r → r.2.2 = obj := by
  intro fuel
  induction fuel with
  | zero => intro it str obj r h; simp [parseNumberLoop] at h
  | succ f ih =>
      intro it str obj r h
      rw [parseNumberLoop] at h
      simp only [parseNumberDecimalLabel] at h
      repeat' split at h
      all_goals first
        | exact ih _ _ _ _ h
        | exact parseNumberDecimalLoop_obj s _ _ _ _ _ h
        | (cases h; rfl)
        | simp at h

/-- Whatever the input, `interpretValue` returns the object it was given: no
production writes to it. -/
theorem interpretValue_obj (s : List Char) (fuel it : Nat) (obj : JsonObject)
    (r : Nat × JsonObject) (h : interpretValue s fuel it obj = .ok r) : r.2 = obj := by
  cases fuel with
  | zero => simp [interpretValue] at h
  | succ f =>
      rw [interpretValue] at h
      simp only [parseString, parseMap, parseList, parseNumber, parseTrue, parseFalse,
        parseNull, assignPointer, JsonObject.assign] at h
      repeat' split at h
      all_goals first
        | (cases h; rfl)
        | (rename_i heq; cases h; exact parseNumberLoop_obj s _ _ _ _ _ heq)
        | simp at h

/-- Whatever the input, when `parse` returns normally the object is as it was
before the call. -/
theorem parse_obj (obj root : JsonObject) (jsonString : String)
    (h : parse obj jsonString = .ok root) : root = obj := by
  unfold parse at h
  split at h
  · simp at h
  · rename_i heq
    cases h
    exact interpretValue_obj _ _ _ _ _ heq

end Parser

/-! ## Parser: the iterator moves forward and the budget suffices -/

namespace Parser

/-- A read that succeeds is a read below `end`. -/
theorem deref_ok_lt (s : List Char) (it : Nat) (c : Char) (h : deref s it = .ok c) :
    it < s.length := by
  unfold deref at h
  split at h
  · rename_i heq
    exact (List.getElem?_eq_some_iff.mp heq).1
  · cases h

/-- The loop of `findFirstNonWhitespace` does not run out of budget. -/
theorem findFirstNonWhitespaceLoop_ne_fuel (s : List Char) :
    ∀ (fuel it : Nat), 0 < fuel → s.length < fuel + it →
      findFirstNonWhitespaceLoop s fuel it ≠ .error .fuel := by
  intro fuel
  induction fuel with
  | zero => intro it h; omega
  | succ f ih =>
      intro it _ h
      rw [findFirstNonWhitespaceLoop]
      repeat' split
      all_goals first
        | (intro hc; cases hc; done)
        | (rename_i heq _; have := deref_ok_lt s _ _ heq; apply ih <;> omega)
        | (rename_i heq; intro hc; cases hc; unfold deref at heq; split at heq <;> cases heq)

/-- When the loop of `findFirstNonWhitespace` returns, the iterator has not
moved back, and a character other than the terminator is the one it stands at,
which is not whitespace. -/
theorem findFirstNonWhitespaceLoop_ok (s : List Char) :
    ∀ (fuel it it1 : Nat) (c : Char), findFirstNonWhitespaceLoop s fuel it = .ok (it1, c) →
      it ≤ it1 ∧ (c ≠ Char.ofNat 0 → deref s it1 = .ok c ∧ isWhitespace c = false) := by
  intro fuel
  induction fuel with
  | zero => intro it it1 c h; simp [findFirstNonWhitespaceLoop] at h
  | succ f ih =>
      intro it it1 c h
      rw [findFirstNonWhitespaceLoop] at h
      repeat' split at h
      all_goals first
        | (cases h; done)
        | (have hx := ih _ _ _ h; exact ⟨by omega, hx.2⟩)
        | (rename_i heq hws; cases h; exact ⟨le_refl _, fun _ => ⟨heq, hws⟩⟩)
        | (cases h; exact ⟨le_refl _, fun hc => absurd rfl hc⟩)

/-- The loop under `exponentLabel` does not run out of budget. -/
theorem parseNumberExponentLoop_ne_fuel (s : List Char) :
    ∀ (fuel it : Nat) (str : List Char), 0 < fuel → s.length < fuel + it →
      parseNumberExponentLoop s fuel it str ≠ .error .fuel := by
  intro fuel
  induction fuel with
  | zero => intro it str h; omega
  | succ f ih =>
      intro it str _ h
      have hlt := deref_ok_lt s it
      rw [parseNumberExponentLoop]
      repeat' split
      all_goals first
        | (intro hc; cases hc; done)
        | (have hx := hlt _ (by assumption); apply ih <;> omega)
        | (rename_i heq; intro hc; cases hc; unfold deref at heq; split at heq <;> cases heq)

/-- When the loop under `exponentLabel` returns, the iterator has moved on. -/
theorem parseNumberExponentLoop_ok (s : List Char) :
    ∀ (fuel it : Nat) (str : List Char) (r : Nat × List Char),
      parseNumberExponentLoop s fuel it str = .ok r → it < r.1 := by
  intro fuel
  induction fuel with
  | zero => intro it str r h; simp [parseNumberExponentLoop] at h
  | succ f ih =>
      intro it str r h
      rw [parseNumberExponentLoop] at h
      repeat' split at h
      all_goals first
        | (cases h; done)
        | (have hx := ih _ _ _ h; omega)
        | (cases h; simp)

/-- A read never ends out of budget. -/
theorem deref_ne_fuel (s : List Char) (it : Nat) : deref s it ≠ .error .fuel := by
  unfold deref
  split <;> (intro hc; cases hc)

/-- The block under `exponentLabel` does not run out of budget. -/
theorem parseNumberExponentLabel_ne_fuel (s : List Char) (it : Nat) (str : List Char) :
    parseNumberExponentLabel s it str ≠ .error .fuel := by
  unfold parseNumberExponentLabel
  split
  · rename_i heq
    intro hc
    cases hc
    exact deref_ne_fuel _ _ heq
  · dsimp only
    split_ifs <;> first
      | (intro hc; cases hc)
      | (apply parseNumberExponentLoop_ne_fuel <;> omega)

/-- When the block under `exponentLabel` returns, the iterator has moved on. -/
theorem parseNumberExponentLabel_ok (s : List Char) (it : Nat) (str : List Char)
    (r : Nat × List Char) (h : parseNumberExponentLabel s it str = .ok r) : it < r.1 := by
  unfold parseNumberExponentLabel at h
  split at h
  · cases h
  · dsimp only at h
    split_ifs at h <;> first
      | cases h
      | (have hx := parseNumberExponentLoop_ok _ _ _ _ _ h; omega)

/-- The loop under `decimalLabel` does not run out of budget. -/
theorem parseNumberDecimalLoop_ne_fuel (s : List Char) :
    ∀ (fuel it : Nat) (str : List Char) (obj : JsonObject), 0 < fuel → s.length < fuel + it →
      parseNumberDecimalLoop s fuel it str obj ≠ .error .fuel := by
  intro fuel
  induction fuel with
  | zero => intro it str obj h; omega
  | succ f ih =>
      intro it str obj _ h
      have hlt := deref_ok_lt s it
      rw [parseNumberDecimalLoop]
      repeat' split
      all_goals first
        | (intro hc; cases hc; done)
        | (have hx := hlt _ (by assumption); apply ih <;> omega)
        | (rename_i heq; intro hc; cases hc; first
            | exact deref_ne_fuel _ _ heq
            | exact parseNumberExponentLabel_ne_fuel _ _ _ heq)

/-- When the loop under `decimalLabel` returns, the iterator has not moved back. -/
theorem parseNumberDecimalLoop_ok (s : List Char) :
    ∀ (fuel it : Nat) (str : List Char) (obj : JsonObject) (r : Nat × List Char × JsonObject),
      parseNumberDecimalLoop s fuel it str obj = .ok r → it ≤ r.1 := by
  intro fuel
  induction fuel with
  | zero => intro it str obj r h; simp [parseNumberDecimalLoop] at h
  | succ f ih =>
      intro it str obj r h
      rw [parseNumberDecimalLoop] at h
      repeat' split at h
      all_goals first
        | (cases h; done)
        | (have hx := ih _ _ _ _ h; omega)
        | (rename_i heq; cases h; have := parseNumberExponentLabel_ok _ _ _ _ heq; simp at this ⊢;
           omega)

/-- The block under `decimalLabel` does not run out of budget. -/
theorem parseNumberDecimalLabel_ne_fuel (s : List Char) (it : Nat) (str : List Char)
    (obj : JsonObject) : parseNumberDecimalLabel s it str obj ≠ .error .fuel := by
  unfold parseNumberDecimalLabel
  repeat' split
  all_goals first
    | (intro hc; cases hc; done)
    | (apply parseNumberDecimalLoop_ne_fuel <;> omega)
    | (rename_i heq; intro hc; cases hc; exact deref_ne_fuel _ _ heq)

/-- When the block under `decimalLabel` returns, the iterator has moved on. -/
theorem parseNumberDecimalLabel_ok (s : List Char) (it : Nat) (str : List Char)
    (obj : JsonObject) (r : Nat × List Char × JsonObject)
    (h : parseNumberDecimalLabel s it str obj = .ok r) : it < r.1 := by
  unfold parseNumberDecimalLabel at h
  repeat' split at h
  all_goals first
    | cases h
    | (have hx := parseNumberDecimalLoop_ok _ _ _ _ _ _ h; omega)

/-- The first loop of `parseNumber` does not run out of budget. -/
theorem parseNumberLoop_ne_fuel (s : List Char) :
    ∀ (fuel it : Nat) (str : List Char) (obj : JsonObject), 0 < fuel → s.length < fuel + it →
      parseNumberLoop s fuel it str obj ≠ .error .fuel := by
  intro fuel
  induction fuel with
  | zero => intro it str obj h; omega
  | succ f ih =>
      intro it str obj _ h
      have hlt := deref_ok_lt s it
      rw [parseNumberLoop]
      repeat' split
      all_goals first
        | (intro hc; cases hc; done)
        | exact parseNumberDecimalLabel_ne_fuel _ _ _ _
        | (have hx := hlt _ (by assumption); apply ih <;> omega)
        | (rename_i heq; intro hc; cases hc; first
            | exact deref_ne_fuel _ _ heq
            | exact parseNumberExponentLabel_ne_fuel _ _ _ heq)

/-- When the first loop of `parseNumber` returns, the iterator has moved on. -/
theorem parseNumberLoop_ok (s : List Char) :
    ∀ (fuel it : Nat) (str : List Char) (obj : JsonObject) (r : Nat × List Char × JsonObject),
      parseNumberLoop s fuel it str obj = .ok r → it < r.1 := by
  intro fuel
  induction fuel with
  | zero => intro it str obj r h; simp [parseNumberLoop] at h
  | succ f ih =>
      intro it str obj r h
      rw [parseNumberLoop] at h
      repeat' split at h
      all_goals first
        | (cases h; done)
        | exact parseNumberDecimalLabel_ok _ _ _ _ _ h
        | (have hx := ih _ _ _ _ h; omega)
        | (rename_i heq; cases h; have := parseNumberExponentLabel_ok _ _ _ _ heq; simp at this ⊢;
           omega)

/-- `parseNumber` does not run out of budget. -/
theorem parseNumber_ne_fuel (s : List Char) (it : Nat) (obj : JsonObject) :
    parseNumber s it obj ≠ .error .fuel := by
  unfold parseNumber
  split
  · rename_i heq
    intro hc
    cases hc
    exact parseNumberLoop_ne_fuel s _ _ _ _ (by omega) (by omega) heq
  · intro hc; cases hc

/-- When `parseNumber` returns, the iterator has moved on. -/
theorem parseNumber_ok (s : List Char) (it : Nat) (obj : JsonObject) (r : Nat × JsonObject)
    (h : parseNumber s it obj = .ok r) : it < r.1 := by
  unfold parseNumber at h
  split at h
  · cases h
  · rename_i heq
    cases h
    exact parseNumberLoop_ok _ _ _ _ _ _ heq

/-- The loop of `parseString` does not run out of budget. -/
theorem parseStringLoop_ne_fuel (s : List Char) :
    ∀ (fuel it : Nat) (backslash : Bool) (str : List Char), 0 < fuel → s.length < fuel + it →
      parseStringLoop s fuel it backslash str ≠ .error .fuel := by
  intro fuel
  induction fuel with
  | zero => intro it backslash str h; omega
  | succ f ih =>
      intro it backslash str _ h
      have hlt := deref_ok_lt s it
      rw [parseStringLoop]
      repeat' split
      all_goals first
        | (intro hc; cases hc; done)
        | (have hx := hlt _ (by assumption); apply ih <;> omega)
        | (rename_i heq; intro hc; cases hc; exact deref_ne_fuel _ _ heq)

/-- When the loop of `parseString` returns, the iterator has not moved back. -/
theorem parseStringLoop_ok (s : List Char) :
    ∀ (fuel it : Nat) (backslash : Bool) (str : List Char) (r : Nat × List Char),
      parseStringLoop s fuel it backslash str = .ok r → it ≤ r.1 := by
  intro fuel
  induction fuel with
  | zero => intro it backslash str r h; simp [parseStringLoop] at h
  | succ f ih =>
      intro it backslash str r h
      rw [parseStringLoop] at h
      repeat' split at h
      all_goals first
        | (cases h; done)
        | (have hx := ih _ _ _ _ h; omega)
        | (cases h; simp)

/-- `parseString` does not run out of budget. -/
theorem parseString_ne_fuel (s : List Char) (it : Nat) (obj : JsonObject) :
    parseString s it obj ≠ .error .fuel := by
  unfold parseString
  split
  · rename_i heq
    intro hc
    cases hc
    exact parseStringLoop_ne_fuel s _ _ _ _ (by omega) (by omega) heq
  · intro hc; cases hc

/-- When `parseString` returns, the iterator has moved on. -/
theorem parseString_ok (s : List Char) (it : Nat) (obj : JsonObject) (r : Nat × JsonObject)
    (h : parseString s it obj = .ok r) : it < r.1 := by
  unfold parseString at h
  split at h
  · cases h
  · rename_i heq
    cases h
    exact parseStringLoop_ok _ _ _ _ _ _ heq

/-- The key loop of `parseMap` does not run out of budget. -/
theorem parseMapKeyLoop_ne_fuel (s : List Char) :
    ∀ (fuel it : Nat) (backslash : Bool) (key : List Char), 0 < fuel → s.length < fuel + it →
      parseMapKeyLoop s fuel it backslash key ≠ .error .fuel := by
  intro fuel
  induction fuel with
  | zero => intro it backslash key h; omega
  | succ f ih =>
      intro it backslash key _ h
      have hlt := deref_ok_lt s it
      rw [parseMapKeyLoop]
      repeat' split
      all_goals first
        | (intro hc; cases hc; done)
        | (have hx := hlt _ (by assumption); apply ih <;> omega)
        | (rename_i heq; intro hc; cases hc; exact deref_ne_fuel _ _ heq)

/-- When the key loop of `parseMap` returns, the iterator has not moved back. -/
theorem parseMapKeyLoop_ok (s : List Char) :
    ∀ (fuel it : Nat) (backslash : Bool) (key : List Char) (r : Nat × List Char),
      parseMapKeyLoop s fuel it backslash key = .ok r → it ≤ r.1 := by
  intro fuel
  induction fuel with
  | zero => intro it backslash key r h; simp [parseMapKeyLoop] at h
  | succ f ih =>
      intro it backslash key r h
      rw [parseMapKeyLoop] at h
      repeat' split at h
      all_goals first
        | (cases h; done)
        | (have hx := ih _ _ _ _ h; omega)
        | (cases h; simp)

/-- `findFirstNonWhitespace` does not run out of budget. -/
theorem findFirstNonWhitespace_ne_fuel (s : List Char) (it : Nat) :
    findFirstNonWhitespace s it ≠ .error .fuel :=
  findFirstNonWhitespaceLoop_ne_fuel s _ it (by omega) (by omega)

/-- When `findFirstNonWhitespace` returns, the iterator has not moved back, and a
returned character other than the terminator is the one the iterator stands
at, which is not whitespace. -/
theorem findFirstNonWhitespace_ok (s : List Char) (it it1 : Nat) (c : Char)
    (h : findFirstNonWhitespace s it = .ok (it1, c)) :
    it ≤ it1 ∧ (c ≠ Char.ofNat 0 → deref s it1 = .ok c ∧ isWhitespace c = false) :=
  findFirstNonWhitespaceLoop_ok s _ it it1 c h

/-- At a character that is not whitespace `findFirstNonWhitespace` returns it
and leaves the iterator in place. -/
theorem findFirstNonWhitespace_of_deref (s : List Char) (it : Nat) (c : Char)
    (hd : deref s it = .ok c) (hws : isWhitespace c = false) :
    findFirstNonWhitespace s it = .ok (it, c) := by
  have hlt := deref_ok_lt s it c hd
  rw [findFirstNonWhitespace, findFirstNonWhitespaceLoop, if_pos (by omega), hd]
  simp [hws]

/-- When the loop of `iteratorAligns` returns, the iterator has not moved back,
and it has moved on when the flag is true. -/
theorem iteratorAlignsLoop_ok (s : List Char) (keyword : List Char) :
    ∀ (it it1 : Nat) (b : Bool), iteratorAlignsLoop s keyword it = .ok (it1, b) →
      it ≤ it1 ∧ (b = true → it < it1) := by
  induction keyword with
  | nil =>
      intro it it1 b h
      simp only [iteratorAlignsLoop, Except.ok.injEq, Prod.mk.injEq] at h
      omega
  | cons k ks ih =>
      intro it it1 b h
      rw [iteratorAlignsLoop] at h
      repeat' split at h
      all_goals first
        | (cases h; done)
        | (have hx := ih _ _ _ h; omega)
        | (cases h; simp)

/-- When `iteratorAligns` returns true, the iterator has moved on. -/
theorem iteratorAligns_ok (s : List Char) (keyword : List Char) (it it1 : Nat)
    (h : iteratorAligns s it keyword = .ok (it1, true)) : it < it1 := by
  unfold iteratorAligns at h
  split at h
  · cases h
  · exact (iteratorAlignsLoop_ok s keyword it it1 true h).2 rfl

/-- The loop of `iteratorAligns` has no budget to run out of. -/
theorem iteratorAlignsLoop_ne_fuel (s : List Char) (keyword : List Char) :
    ∀ (it : Nat), iteratorAlignsLoop s keyword it ≠ .error .fuel := by
  induction keyword with
  | nil => intro it h; simp [iteratorAlignsLoop] at h
  | cons k ks ih =>
      intro it
      rw [iteratorAlignsLoop]
      repeat' split
      all_goals first
        | (intro hc; cases hc; done)
        | exact ih _
        | (rename_i heq; intro hc; cases hc; exact deref_ne_fuel _ _ heq)

/-- `iteratorAligns` has no budget to run out of. -/
theorem iteratorAligns_ne_fuel (s : List Char) (keyword : List Char) (it : Nat) :
    iteratorAligns s it keyword ≠ .error .fuel := by
  unfold iteratorAligns
  split
  · intro hc; cases hc
  · exact iteratorAlignsLoop_ne_fuel s keyword it

/-- The three literal productions have no budget to run out of. -/
theorem parseLiteral_ne_fuel (s : List Char) (it : Nat) (obj : JsonObject) :
    parseNull s it obj ≠ .error .fuel ∧ parseTrue s it obj ≠ .error .fuel ∧
      parseFalse s it obj ≠ .error .fuel := by
  refine ⟨?_, ?_, ?_⟩
  all_goals
    (first
      | (unfold parseNull; simp only [JsonObject.assign])
      | unfold parseTrue
      | unfold parseFalse)
    split
    · rename_i heq
      intro hc
      cases hc
      exact iteratorAligns_ne_fuel _ _ _ heq
    · intro hc; cases hc
    · intro hc; cases hc

/-- When a literal production returns, the iterator has moved on. -/
theorem parseLiteral_ok (s : List Char) (it : Nat) (obj : JsonObject) (r : Nat × JsonObject) :
    (parseNull s it obj = .ok r → it < r.1) ∧ (parseTrue s it obj = .ok r → it < r.1) ∧
      (parseFalse s it obj = .ok r → it < r.1) := by
  refine ⟨?_, ?_, ?_⟩
  all_goals
    intro h
    (first
      | (unfold parseNull at h; simp only [JsonObject.assign] at h)
      | unfold parseTrue at h
      | unfold parseFalse at h)
    split at h
    · cases h
    · first
        | (rename_i heq; cases h; exact iteratorAligns_ok _ _ _ _ heq)
        | cases h
    · cases h

/-- The comma check of `parseMap` has no budget to run out of. -/
theorem parseMapExpectedComma_ne_fuel (s : List Char) (it : Nat) :
    parseMapExpectedComma s it ≠ .error .fuel := by
  unfold parseMapExpectedComma
  repeat' split
  all_goals first
    | (intro hc; cases hc; done)
    | (rename_i heq; intro hc; cases hc; exact deref_ne_fuel _ _ heq)

/-- When the comma check of `parseMap` returns, the iterator is where it was. -/
theorem parseMapExpectedComma_ok (s : List Char) (it it1 : Nat)
    (h : parseMapExpectedComma s it = .ok it1) : it ≤ it1 := by
  unfold parseMapExpectedComma at h
  repeat' split at h
  all_goals first
    | (cases h; done)
    | (cases h; exact le_refl _)

/-- The statement after the value in `parseMap` does not run out of budget. -/
theorem parseMapAfterValue_ne_fuel (s : List Char) (it : Nat) :
    parseMapAfterValue s it ≠ .error .fuel := by
  unfold parseMapAfterValue
  repeat' split
  all_goals first
    | (intro hc; cases hc; done)
    | exact parseMapExpectedComma_ne_fuel _ _
    | (rename_i heq; intro hc; cases hc; first
        | exact deref_ne_fuel _ _ heq
        | exact findFirstNonWhitespace_ne_fuel _ _ heq)

/-- When the statement after the value in `parseMap` returns, the iterator has
not moved back. -/
theorem parseMapAfterValue_ok (s : List Char) (it it1 : Nat)
    (h : parseMapAfterValue s it = .ok it1) : it ≤ it1 := by
  unfold parseMapAfterValue at h
  split at h
  · cases h
  · rename_i it2 c0 heq
    have h2 := (findFirstNonWhitespace_ok s _ _ _ heq).1
    split at h
    · split at h
      · cases h
      · rename_i it3 c1 heq3
        have h3 := (findFirstNonWhitespace_ok s _ _ _ heq3).1
        repeat' split at h
        all_goals first
          | (cases h; done)
          | (have hx := parseMapExpectedComma_ok _ _ _ h; omega)
          | (cases h; omega)
    · cases h; exact h2

/-- When the loop of `parseList` returns, the iterator has not moved back,
for an `interp` that moves the iterator on from a character that is neither
whitespace nor the terminator. -/
theorem parseListLoop_ok (s : List Char)
    (interp : Nat → JsonObject → Except Err (Nat × JsonObject))
    (hadv : ∀ it obj r c, interp it obj = .ok r → deref s it = .ok c →
      isWhitespace c = false → c ≠ Char.ofNat 0 → it < r.1) :
    ∀ (fuel it : Nat) (list : JsonList) (r : Nat × JsonList),
      parseListLoop interp s fuel it list = .ok r → it ≤ r.1 := by
  intro fuel
  induction fuel with
  | zero => intro it list r h; simp [parseListLoop] at h
  | succ f ih =>
      intro it list r h
      rw [parseListLoop] at h
      split at h
      · cases h
      · split at h
        · split at h
          · cases h
          · rename_i it1 c0 heq1
            have h1 := findFirstNonWhitespace_ok s _ _ _ heq1
            split at h
            · cases h
            · rename_i hc0
              split at h
              · cases h
              · rename_i it2 element heq2
                have h2 := hadv _ _ _ _ heq2 (h1.2 hc0).1 (h1.2 hc0).2 hc0
                have := ih _ _ _ h
                simp only at h2
                omega
        · cases h; exact le_refl _

/-- The loop of `parseList` does not run out of budget, for an `interp` that
does not from the iterator on and that moves the iterator on. -/
theorem parseListLoop_ne_fuel (s : List Char)
    (interp : Nat → JsonObject → Except Err (Nat × JsonObject))
    (hadv : ∀ it obj r c, interp it obj = .ok r → deref s it = .ok c →
      isWhitespace c = false → c ≠ Char.ofNat 0 → it < r.1) :
    ∀ (fuel it : Nat) (list : JsonList),
      (∀ it1 obj, it ≤ it1 → interp it1 obj ≠ .error .fuel) → 0 < fuel →
      s.length < fuel + it → parseListLoop interp s fuel it list ≠ .error .fuel := by
  intro fuel
  induction fuel with
  | zero => intro it list _ h; omega
  | succ f ih =>
      intro it list hnf _ hlen
      rw [parseListLoop]
      split
      · rename_i heq
        intro hc
        cases hc
        exact deref_ne_fuel _ _ heq
      · rename_i c heq
        have hlt := deref_ok_lt s it c heq
        split
        · split
          · rename_i heq1
            intro hc
            cases hc
            exact findFirstNonWhitespace_ne_fuel _ _ heq1
          · rename_i it1 c0 heq1
            have h1 := findFirstNonWhitespace_ok s _ _ _ heq1
            split
            · intro hc; cases hc
            · rename_i hc0
              split
              · rename_i heq2
                intro hc
                cases hc
                exact hnf _ _ h1.1 heq2
              · rename_i it2 element heq2
                have h2 := hadv _ _ _ _ heq2 (h1.2 hc0).1 (h1.2 hc0).2 hc0
                simp only at h2
                exact ih _ _ (fun it3 obj h3 => hnf it3 obj (by omega)) (by omega) (by omega)
        · intro hc; cases hc

/-- When `parseList` returns, the iterator has moved on. -/
theorem parseList_ok (s : List Char)
    (interp : Nat → JsonObject → Except Err (Nat × JsonObject))
    (hadv : ∀ it obj r c, interp it obj = .ok r → deref s it = .ok c →
      isWhitespace c = false → c ≠ Char.ofNat 0 → it < r.1)
    (it : Nat) (obj : JsonObject) (r : Nat × JsonObject)
    (h : parseList interp s it obj = .ok r) : it < r.1 := by
  unfold parseList at h
  split at h
  · cases h
  · rename_i it1 c0 heq1
    have h1 := (findFirstNonWhitespace_ok s _ _ _ heq1).1
    split at h
    · cases h
    · dsimp only at h
      split at h
      · cases h
      · rename_i it2 l heq2
        have h2 := parseListLoop_ok s interp hadv _ _ _ _ heq2
        cases h
        simp only at h2 ⊢
        omega

/-- `parseList` does not run out of budget, for an `interp` that does not
beyond the iterator and that moves the iterator on. -/
theorem parseList_ne_fuel (s : List Char)
    (interp : Nat → JsonObject → Except Err (Nat × JsonObject))
    (hadv : ∀ it obj r c, interp it obj = .ok r → deref s it = .ok c →
      isWhitespace c = false → c ≠ Char.ofNat 0 → it < r.1)
    (it : Nat) (obj : JsonObject)
    (hnf : ∀ it1 obj, it < it1 → interp it1 obj ≠ .error .fuel) :
    parseList interp s it obj ≠ .error .fuel := by
  unfold parseList
  split
  · rename_i heq1
    intro hc
    cases hc
    exact findFirstNonWhitespace_ne_fuel _ _ heq1
  · rename_i it1 c0 heq1
    have h1 := (findFirstNonWhitespace_ok s _ _ _ heq1).1
    split
    · intro hc; cases hc
    · dsimp only
      split
      · rename_i heq2
        intro hc
        cases hc
        exact parseListLoop_ne_fuel s interp hadv _ _ _
          (fun it3 obj h3 => hnf it3 obj (by omega)) (by omega) (by omega) heq2
      · intro hc; cases hc

/-- When the outer loop of `parseMap` returns, the iterator has not moved back,
for an `interp` that moves the iterator on. -/
theorem parseMapLoop_ok (s : List Char)
    (interp : Nat → JsonObject → Except Err (Nat × JsonObject))
    (hadv : ∀ it obj r c, interp it obj = .ok r → deref s it = .ok c →
      isWhitespace c = false → c ≠ Char.ofNat 0 → it < r.1) :
    ∀ (fuel it it1 : Nat), parseMapLoop interp s fuel it = .ok it1 → it ≤ it1 := by
  intro fuel
  induction fuel with
  | zero => intro it it1 h; simp [parseMapLoop] at h
  | succ f ih =>
      intro it it1 h
      rw [parseMapLoop] at h
      split at h
      · split at h
        · cases h
        · split at h
          · cases h; exact le_refl _
          · split at h
            · cases h
            · split at h
              · cases h
              · rename_i it2 key heq2
                have h2 := parseMapKeyLoop_ok s _ _ _ _ _ heq2
                split at h
                · cases h
                · rename_i it3 c0 heq3
                  have h3 := findFirstNonWhitespace_ok s _ _ _ heq3
                  split at h
                  · cases h
                  · rename_i hc0
                    split at h
                    · cases h
                    · split at h
                      · cases h
                      · split at h
                        · cases h
                        · rename_i it4 value heq4
                          have h4 := hadv _ _ _ _ heq4 (h3.2 hc0).1 (h3.2 hc0).2 hc0
                          split at h
                          · cases h
                          · rename_i it5 heq5
                            have h5 := parseMapAfterValue_ok s _ _ heq5
                            have := ih _ _ h
                            simp only at h2 h4
                            omega
      · cases h; exact le_refl _

/-- The outer loop of `parseMap` does not run out of budget, for an `interp`
that does not from the iterator on and that moves the iterator on. -/
theorem parseMapLoop_ne_fuel (s : List Char)
    (interp : Nat → JsonObject → Except Err (Nat × JsonObject))
    (hadv : ∀ it obj r c, interp it obj = .ok r → deref s it = .ok c →
      isWhitespace c = false → c ≠ Char.ofNat 0 → it < r.1) :
    ∀ (fuel it : Nat), (∀ it1 obj, it ≤ it1 → interp it1 obj ≠ .error .fuel) → 0 < fuel →
      s.length < fuel + it → parseMapLoop interp s fuel it ≠ .error .fuel := by
  intro fuel
  induction fuel with
  | zero => intro it _ h; omega
  | succ f ih =>
      intro it hnf _ hlen
      rw [parseMapLoop]
      split
      · split
        · rename_i heq
          intro hc
          cases hc
          exact deref_ne_fuel _ _ heq
        · rename_i c heq
          have hlt := deref_ok_lt s it c heq
          split
          · intro hc; cases hc
          · split
            · intro hc; cases hc
            · split
              · rename_i heq2
                intro hc
                cases hc
                exact parseMapKeyLoop_ne_fuel s _ _ _ _ (by omega) (by omega) heq2
              · rename_i it2 key heq2
                have h2 := parseMapKeyLoop_ok s _ _ _ _ _ heq2
                split
                · rename_i heq3
                  intro hc
                  cases hc
                  exact findFirstNonWhitespace_ne_fuel _ _ heq3
                · rename_i it3 c0 heq3
                  have h3 := findFirstNonWhitespace_ok s _ _ _ heq3
                  split
                  · intro hc; cases hc
                  · rename_i hc0
                    split
                    · rename_i heq
                      intro hc
                      cases hc
                      exact deref_ne_fuel _ _ heq
                    · split
                      · intro hc; cases hc
                      · split
                        · rename_i heq4
                          intro hc
                          cases hc
                          simp only at h2
                          exact hnf _ _ (by omega) heq4
                        · rename_i it4 value heq4
                          have h4 := hadv _ _ _ _ heq4 (h3.2 hc0).1 (h3.2 hc0).2 hc0
                          split
                          · rename_i heq5
                            intro hc
                            cases hc
                            exact parseMapAfterValue_ne_fuel _ _ heq5
                          · rename_i it5 heq5
                            have h5 := parseMapAfterValue_ok s _ _ heq5
                            simp only at h2 h4
                            exact ih _ (fun it6 obj h6 => hnf it6 obj (by omega)) (by omega)
                              (by omega)
      · intro hc; cases hc

/-- When `parseMap` returns, the iterator has moved on. -/
theorem parseMap_ok (s : List Char)
    (interp : Nat → JsonObject → Except Err (Nat × JsonObject))
    (hadv : ∀ it obj r c, interp it obj = .ok r → deref s it = .ok c →
      isWhitespace c = false → c ≠ Char.ofNat 0 → it < r.1)
    (it : Nat) (obj : JsonObject) (r : Nat × JsonObject)
    (h : parseMap interp s it obj = .ok r) : it < r.1 := by
  unfold parseMap at h
  split at h
  · cases h
  · rename_i it1 c0 heq1
    have h1 := (findFirstNonWhitespace_ok s _ _ _ heq1).1
    split at h
    · cases h
    · dsimp only at h
      split at h
      · cases h
      · rename_i it2 c1 heq2
        have h2 := (findFirstNonWhitespace_ok s _ _ _ heq2).1
        split at h
        · cases h
        · split at h
          · cases h
          · rename_i it3 heq3
            have h3 := parseMapLoop_ok s interp hadv _ _ _ heq3
            cases h
            simp only
            omega

/-- `parseMap` does not run out of budget, for an `interp` that does not
beyond the iterator and that moves the iterator on. -/
theorem parseMap_ne_fuel (s : List Char)
    (interp : Nat → JsonObject → Except Err (Nat × JsonObject))
    (hadv : ∀ it obj r c, interp it obj = .ok r → deref s it = .ok c →
      isWhitespace c = false → c ≠ Char.ofNat 0 → it < r.1)
    (it : Nat) (obj : JsonObject)
    (hnf : ∀ it1 obj, it < it1 → interp it1 obj ≠ .error .fuel) :
    parseMap interp s it obj ≠ .error .fuel := by
  unfold parseMap
  split
  · rename_i heq1
    intro hc
    cases hc
    exact findFirstNonWhitespace_ne_fuel _ _ heq1
  · rename_i it1 c0 heq1
    have h1 := (findFirstNonWhitespace_ok s _ _ _ heq1).1
    split
    · intro hc; cases hc
    · dsimp only
      split
      · rename_i heq2
        intro hc
        cases hc
        exact findFirstNonWhitespace_ne_fuel _ _ heq2
      · rename_i it2 c1 heq2
        have h2 := (findFirstNonWhitespace_ok s _ _ _ heq2).1
        split
        · intro hc; cases hc
        · split
          · rename_i heq3
            intro hc
            cases hc
            exact parseMapLoop_ne_fuel s interp hadv _ _
              (fun it3 obj h3 => hnf it3 obj (by omega)) (by omega) (by omega) heq3
          · intro hc; cases hc

/-- When `interpretValue` returns from a character that is neither whitespace
nor the terminator, the iterator has moved on. -/
theorem interpretValue_ok (s : List Char) :
    ∀ (fuel it : Nat) (obj : JsonObject) (r : Nat × JsonObject) (c : Char),
      interpretValue s fuel it obj = .ok r → deref s it = .ok c →
      isWhitespace c = false → c ≠ Char.ofNat 0 → it < r.1 := by
  intro fuel
  induction fuel with
  | zero => intro it obj r c h; simp [interpretValue] at h
  | succ f ih =>
      intro it obj r c h hd hws hc0
      rw [interpretValue, findFirstNonWhitespace_of_deref s it c hd hws] at h
      simp only [hc0, if_false, hd] at h
      repeat' split at h
      all_goals first
        | exact parseString_ok _ _ _ _ h
        | exact parseMap_ok s _ ih _ _ _ h
        | exact parseList_ok s _ ih _ _ _ h
        | exact parseNumber_ok _ _ _ _ h
        | exact (parseLiteral_ok _ _ _ _).1 h
        | exact (parseLiteral_ok _ _ _ _).2.1 h
        | exact (parseLiteral_ok _ _ _ _).2.2 h
        | cases h

/-- With a budget above the distance from the iterator to `end`,
`interpretValue` does not run out of it. -/
theorem interpretValue_ne_fuel (s : List Char) :
    ∀ (fuel it : Nat) (obj : JsonObject), 0 < fuel → s.length < fuel + it →
      interpretValue s fuel it obj ≠ .error .fuel := by
  intro fuel
  induction fuel with
  | zero => intro it obj h; omega
  | succ f ih =>
      intro it obj _ hlen
      rw [interpretValue]
      split
      · rename_i heq1
        intro hc
        cases hc
        exact findFirstNonWhitespace_ne_fuel _ _ heq1
      · rename_i it1 c0 heq1
        have h1 := findFirstNonWhitespace_ok s _ _ _ heq1
        split
        · intro hc; cases hc
        · rename_i hc0
          have hlt := deref_ok_lt s it1 c0 (h1.2 hc0).1
          have hnf : ∀ it2 obj, it1 < it2 → interpretValue s f it2 obj ≠ .error .fuel :=
            fun it2 obj h2 => ih it2 obj (by omega) (by omega)
          split
          · rename_i heq
            intro hc
            cases hc
            exact deref_ne_fuel _ _ heq
          · repeat' split
            all_goals first
              | exact parseString_ne_fuel _ _ _
              | exact parseMap_ne_fuel s _ (interpretValue_ok s f) _ _ hnf
              | exact parseList_ne_fuel s _ (interpretValue_ok s f) _ _ hnf
              | exact parseNumber_ne_fuel _ _ _
              | exact (parseLiteral_ne_fuel _ _ _).1
              | exact (parseLiteral_ne_fuel _ _ _).2.1
              | exact (parseLiteral_ne_fuel _ _ _).2.2
              | (intro hc; cases hc)

/-- `parse` does not run out of the budget it gives `interpretValue`: whatever
the input, it ends in a normal return, a `ParsingException` or a read outside
the input. -/
theorem parse_ne_fuel (obj : JsonObject) (jsonString : String) :
    parse obj jsonString ≠ .error .fuel := by
  unfold parse
  split
  · rename_i heq
    intro hc
    cases hc
    have hlen : jsonString.length = jsonString.toList.length := rfl
    exact interpretValue_ne_fuel _ _ _ _ (by omega) (by omega) heq
  · intro hc; cases hc

end Parser

/-! ## Parser: object keys and numerals -/

namespace Parser

/-- A read below `end` succeeds. -/
theorem deref_of_lt (s : List Char) (it : Nat) (h : it < s.length) :
    ∃ c, deref s it = .ok c := by
  refine ⟨s[it], ?_⟩
  simp [deref, List.getElem?_eq_getElem h]

/-- At `end`, `findFirstNonWhitespace` returns the terminator. -/
theorem findFirstNonWhitespace_end (s : List Char) :
    findFirstNonWhitespace s s.length = .ok (s.length, Char.ofNat 0) := by
  simp [findFirstNonWhitespace, findFirstNonWhitespaceLoop]

/-- The key loop of `parseMap` runs to `end` from wherever it starts. -/
theorem parseMapKeyLoop_end (s : List Char) :
    ∀ (fuel it : Nat) (backslash : Bool) (key : List Char), it ≤ s.length →
      s.length - it < fuel →
      ∃ key1, parseMapKeyLoop s fuel it backslash key = .ok (s.length, key1) := by
  intro fuel
  induction fuel with
  | zero => intro it backslash key _ h; omega
  | succ f ih =>
      intro it backslash key hle hfuel
      rw [parseMapKeyLoop]
      by_cases hend : it = s.length
      · subst hend
        exact ⟨key, by simp⟩
      · obtain ⟨c, hc⟩ := deref_of_lt s it (by omega)
        rw [if_pos hend, hc]
        dsimp only
        split_ifs <;> exact ih _ _ _ (by omega) (by omega)

/-- Whatever follows the opening quote of its first key, `parse` of an object
text throws the expected-colon `ParsingException`: the key loop runs to the
end of the input. -/
theorem parse_object_key_throws (ws rest : List Char) (obj : JsonObject)
    (hws : ∀ c ∈ ws, isWhitespace c = true) :
    parse obj (String.mk ('\x7b' :: (ws ++ '\"' :: rest))) =
      .error (.ParsingException EXPECTED_COLON) := by
  have key : ∀ s : List Char, s = '\x7b' :: (ws ++ '\"' :: rest) → ∀ fuel,
      interpretValue s (fuel + 1) 0 obj = .error (.ParsingException EXPECTED_COLON) := by
    intro s hs fuel
    have hd0 : deref s 0 = .ok '\x7b' := by subst hs; simp [deref]
    have hdrop1 : s.drop 1 = ws ++ '\"' :: rest := by subst hs; rfl
    have hdropq : s.drop (1 + ws.length) = '\"' :: rest := by
      subst hs
      rw [Nat.add_comm]
      simp
    have hlen : s.length = 1 + ws.length + 1 + rest.length := by
      subst hs
      simp
      omega
    have hskip : findFirstNonWhitespace s 1 = .ok (1 + ws.length, '\"') :=
      findFirstNonWhitespaceLoop_skip s '\"' rest (by decide) ws 1
        (s.length + 1) hdrop1 hws (by omega)
    have hdq := deref_of_drop s rest (1 + ws.length) '\"' hdropq
    have hq := findFirstNonWhitespace_of_deref s (1 + ws.length) '\"' hdq (by decide)
    obtain ⟨key1, hkey⟩ := parseMapKeyLoop_end s (s.length + 1) (1 + ws.length) false []
      (by omega) (by omega)
    rw [interpretValue, findFirstNonWhitespace_of_deref s 0 '\x7b' hd0 (by decide)]
    simp only [hd0]
    rw [if_neg (by decide), if_neg (by decide), if_pos trivial]
    simp only [parseMap, zero_add, hskip]
    rw [if_neg (by decide)]
    simp only [hq]
    rw [if_neg (by decide), parseMapLoop, if_pos (by omega)]
    simp only [hdq, hkey, findFirstNonWhitespace_end]
    rw [if_neg (by decide)]
    simp
  have h := key _ rfl ('\x7b' :: (ws ++ '\"' :: rest)).length
  simp only [parse, String.length, String.toList, h]

/-- Numerals on which `parse` does not return normally: `-1` throws the
malformed-number `ParsingException`, and on `123` the iterator is read beyond
the end of the input. On `1e5` it returns and the root is still Null. -/
theorem parse_numerals :
    parse JsonObject.default "-1" = .error (.ParsingException MALFORMED_NUMBER) ∧
      parse JsonObject.default "123" = .error .outOfRange ∧
      parse JsonObject.default "1e5" = .ok (JsonObject.Null JsonNull.mk) :=
  ⟨rfl, rfl, rfl⟩

end Parser

/-! ## Parser: the null literal and the string production -/

/-- With whitespace `ws1` and then the keyword `null` from the start of the
text, `interpretValue` matches the keyword and reaches `JsonObject = JsonNull();`
in `parseNull`, the call of `operator=`, which has no defined result. -/
theorem interpretValue_null (s ws1 rest : List Char) (fuel : Nat) (obj : JsonObject)
    (hs : s = ws1 ++ ('n' :: 'u' :: 'l' :: 'l' :: rest))
    (h1 : ∀ c ∈ ws1, Parser.isWhitespace c = true) :
    Parser.interpretValue s (fuel + 1) 0 obj = .error .noReturn := by
  have hdrop0 : s.drop 0 = ws1 ++ 'n' :: ('u' :: 'l' :: 'l' :: rest) := by simp [hs]
  have hdrop : s.drop ws1.length = "null".toList ++ rest := by simp [hs]
  have hdropn : s.drop ws1.length = 'n' :: ('u' :: 'l' :: 'l' :: rest) := by simp [hs]
  have hlen : ws1.length < s.length + 1 := by simp [hs]; omega
  have hskip := Parser.findFirstNonWhitespaceLoop_skip s 'n' _ (by decide) ws1 0
    (s.length + 1) hdrop0 h1 hlen
  have hd := Parser.deref_of_drop s _ ws1.length 'n' hdropn
  have hal := Parser.iteratorAligns_match s rest "null".toList ws1.length hdrop
  rw [zero_add] at hskip
  rw [Parser.interpretValue]
  simp only [Parser.findFirstNonWhitespace, hskip, hd]
  rw [if_neg (by decide), if_neg (by decide), if_neg (by decide), if_neg (by decide),
    if_neg (by decide), if_neg (by decide), if_neg (by decide), if_pos trivial]
  simp only [Parser.parseNull, hal, JsonObject.assign]

/-- Whatever whitespace stands before the keyword `null` and whatever text
follows it, and whatever the object holds, `parse` reaches the call of
`operator=` in `parseNull` and has no defined result. -/
theorem parse_null_noReturn (ws1 rest : List Char) (obj : JsonObject)
    (h1 : ∀ c ∈ ws1, Parser.isWhitespace c = true) :
    Parser.parse obj (String.mk (ws1 ++ "null".toList ++ rest)) = .error .noReturn := by
  have h := interpretValue_null (ws1 ++ ['n', 'u', 'l', 'l'] ++ rest) ws1 rest
    (ws1 ++ ['n', 'u', 'l', 'l'] ++ rest).length obj (by simp) h1
  simp only [Parser.parse, String.length, String.toList, h]

/-- C5, the code at the failing input: `parse` of `null` into a fresh value does
not return normally. The keyword is matched, which leaves the cursor at `5`,
beyond the end of the input, and `parseNull` then calls `operator=`, whose
empty body stores nothing and ends without a `return`: the call has no defined
result. -/
theorem parse_null_no_defined_result :
    Parser.parse JsonObject.default "null" = .error .noReturn ∧
      Parser.iteratorAligns "null".toList 0 "null".toList = .ok (5, true) ∧
      (JsonObject.Boolean ⟨true⟩).assignBody JsonNull.mk = JsonObject.Boolean ⟨true⟩ :=
  ⟨rfl, rfl, rfl⟩

/-- C11, the code at the failing input: `asInteger` of `-12` as an `int` is
`-288`, the fold started from `'-' - '0' = -3`, and not `-12`. -/
theorem asInteger_minus_twelve :
    JsonNumber.asInteger IntT.int ⟨"-12".toList⟩ = -288 ∧ digitOf '-' = -3 :=
  ⟨rfl, rfl⟩

set_option maxRecDepth 10000 in
/-- C12, as the claim states it, fails on `99999999999` converted to
`unsigned int`: the value exceeds the largest value of the type, and
`asInteger` returns the integer `1215752191`, which is the value reduced modulo
`2 ^ 32`. -/
theorem asInteger_overflow_wraps :
    IntT.max IntT.unsigned < decimalValue "99999999999".toList ∧
      JsonNumber.asInteger IntT.unsigned ⟨"99999999999".toList⟩ = 1215752191 ∧
      (1215752191 : Int) = decimalValue "99999999999".toList % 2 ^ 32 :=
  ⟨by decide, rfl, by decide⟩

/-- Two integers that agree modulo `2 ^ bits` are stored as the same value. -/
theorem IntT.wrap_congr (T : IntT) (x y : Int) (h : x % 2 ^ T.bits = y % 2 ^ T.bits) :
    T.wrap x = T.wrap y := by
  unfold IntT.wrap
  split_ifs
  · have h2 : (x + 2 ^ (T.bits - 1)) % 2 ^ T.bits = (y + 2 ^ (T.bits - 1)) % 2 ^ T.bits := by
      rw [Int.add_emod, h, ← Int.add_emod]
    rw [h2]
  · exact h

/-- Storing a value does not change it modulo `2 ^ bits`. -/
theorem IntT.wrap_emod (T : IntT) (x : Int) : T.wrap x % 2 ^ T.bits = x % 2 ^ T.bits := by
  unfold IntT.wrap
  split_ifs
  · rw [Int.sub_emod, Int.emod_emod_of_dvd _ (dvd_refl _), ← Int.sub_emod]
    simp
  · exact Int.emod_emod_of_dvd _ (dvd_refl _)

/-- The loop of `asInteger` in the arithmetic of `T` ends in the stored exact
fold. -/
theorem foldl_wrap_eq_wrap (T : IntT) (l : List Char) (acc acc1 : Int)
    (h : acc = T.wrap acc1) :
    l.foldl (fun num c => T.wrap (num * 10 + digitOf c)) acc =
      T.wrap (l.foldl (fun value c => value * 10 + digitOf c) acc1) := by
  induction l generalizing acc acc1 with
  | nil => exact h
  | cons c t ih =>
      simp only [List.foldl_cons]
      apply ih
      apply IntT.wrap_congr
      rw [h, Int.add_emod, Int.mul_emod, IntT.wrap_emod, ← Int.mul_emod, ← Int.add_emod]

/-- The loop of `asInteger` ends in the stored decimal value, whatever the
characters of the non-empty string are. -/
theorem asInteger_eq_wrap (T : IntT) (d : List Char) (hne : d ≠ []) :
    JsonNumber.asInteger T ⟨d⟩ = T.wrap (decimalValue d) := by
  cases d with
  | nil => exact absurd rfl hne
  | cons c t =>
      simp only [JsonNumber.asInteger, decimalValue, charAt, List.drop_succ_cons, List.drop_zero,
        List.getD_cons_zero, List.foldl_cons, zero_mul, zero_add]
      exact foldl_wrap_eq_wrap T t _ _ rfl

/-- C12, amended: for every digits-only numeral whose exact value exceeds the
largest value of an unsigned target integer type of `bits` bits, `asInteger`
ends in no error: it returns the value reduced modulo `2 ^ bits`, an integer
within the range of the type and different from the exact value. -/
theorem asInteger_wraps (T : IntT) (d : List Char) (hT : T.signed = false) (hne : d ≠ [])
    (hd : ∀ c ∈ d, isdigit c = true) (hover : T.max < decimalValue d) :
    JsonNumber.asInteger T ⟨d⟩ = decimalValue d % 2 ^ T.bits ∧
      0 ≤ JsonNumber.asInteger T ⟨d⟩ ∧ JsonNumber.asInteger T ⟨d⟩ ≤ T.max ∧
      JsonNumber.asInteger T ⟨d⟩ ≠ decimalValue d := by
  have hnonneg : 0 ≤ decimalValue d := le_foldl_digits d 0 (le_refl 0) hd
  have hpos : (0 : Int) < 2 ^ T.bits := by positivity
  have hlt := Int.emod_lt_of_pos (decimalValue d) hpos
  have hge := Int.emod_nonneg (decimalValue d) (ne_of_gt hpos)
  have heq : JsonNumber.asInteger T ⟨d⟩ = decimalValue d % 2 ^ T.bits := by
    rw [asInteger_eq_wrap T d hne, IntT.wrap, hT]
    rfl
  simp only [IntT.max, hT, Bool.false_eq_true, if_false] at hover ⊢
  rw [heq]
  refine ⟨rfl, hge, by omega, by omega⟩

set_option maxRecDepth 10000 in
/-- C12, amended, at `99999999999` converted to `unsigned int`: the result is
`1215752191`. -/
theorem asInteger_wraps_witness :
    JsonNumber.asInteger IntT.unsigned ⟨"99999999999".toList⟩ =
        decimalValue "99999999999".toList % 2 ^ IntT.unsigned.bits ∧
      decimalValue "99999999999".toList % 2 ^ IntT.unsigned.bits = 1215752191 :=
  ⟨(asInteger_wraps IntT.unsigned "99999999999".toList rfl (by decide) (by decide)
    (by decide)).1, by decide⟩

/-- C13, the code at the failing inputs: with an exponent, `asDecimal` returns
the mantissa raised to the exponent: `9` for `-3e2`, `8` for `2e3` and `27/8`
for `1.5e3`, where mantissa times the power of ten is `-300`, `2000`, `1500`. -/
theorem asDecimal_exponent_is_power :
    JsonNumber.asDecimal ⟨"-3e2".toList⟩ = .ok 9 ∧
      JsonNumber.asDecimal ⟨"2e3".toList⟩ = .ok 8 ∧
      JsonNumber.asDecimal ⟨"1.5e3".toList⟩ = .ok (27 / 8) :=
  ⟨by with_unfolding_all rfl, by with_unfolding_all rfl, by with_unfolding_all rfl⟩

/-- C15, the code at the failing input: `asDecimal` of `-12` is `12`; the
`return num;` after the first loop does not apply the sign. -/
theorem asDecimal_minus_twelve : JsonNumber.asDecimal ⟨"-12".toList⟩ = .ok 12 := by
  with_unfolding_all rfl

/-! ## Parser: unterminated arrays, the cursor after a literal, reads out of range -/

/-- C17, the code at the failing input: `parse` of `[1, 2` throws the
malformed-number `ParsingException`, not the unfinished-list one. -/
theorem parse_unterminated_list_throws_malformed_number :
    Parser.parse JsonObject.default "[1, 2" =
        .error (.ParsingException Parser.MALFORMED_NUMBER) ∧
      Parser.MALFORMED_NUMBER ≠ Parser.UNFINISHED_LIST :=
  ⟨rfl, by decide⟩

/-- C18, the code at the failing inputs: from cursor `0` the literal
productions leave the cursor at `5` after `true` and `6` after `false`, and the
match of the keyword in `parseNull` leaves it at `5` after `null`: one beyond
the end of the keyword. -/
theorem parseLiteral_cursor_one_beyond :
    Parser.parseTrue "true".toList 0 JsonObject.default = .ok (5, JsonObject.default) ∧
      Parser.parseFalse "false".toList 0 JsonObject.default = .ok (6, JsonObject.default) ∧
      Parser.iteratorAligns "null".toList 0 "null".toList = .ok (5, true) :=
  ⟨rfl, rfl, rfl⟩

/-- C19, the code at the failing inputs: on `123` and on `1.5 ` the iterator is
read outside the input, and on `null` the match of the keyword leaves the
cursor at `5`, beyond the length `4` of the input. -/
theorem parse_leaves_the_input :
    Parser.parse JsonObject.default "123" = .error .outOfRange ∧
      Parser.parse JsonObject.default "1.5 " = .error .outOfRange ∧
      Parser.iteratorAligns "null".toList 0 "null".toList = .ok (5, true) ∧
      "null".toList.length = 4 :=
  ⟨rfl, rfl, rfl, rfl⟩

/-! ## Number lexical form: the decimal conversion without an exponent -/

namespace JsonNumber

/-- When the string from `index` on is `c :: t`, `str[index]` is `c` and
`index` is below the length. -/
theorem charAt_of_drop (str t : List Char) (index : Nat) (c : Char)
    (h : str.drop index = c :: t) : charAt str index = c ∧ index < str.length := by
  have hlen := congrArg List.length h
  simp only [List.length_drop, List.length_cons] at hlen
  have hlt : index < str.length := by omega
  refine ⟨?_, hlt⟩
  have h0 : str[index]? = (str.drop index)[0]? := by simp [List.getElem?_drop]
  rw [charAt, List.getD_eq_getElem?_getD, h0, h]
  simp

/-- The accumulation of digits in `DecimalT` is the accumulation in the
integers. -/
theorem foldl_cast_digits (ds : List Char) (a : Int) :
    ds.foldl (fun (num : ℚ) c => num * 10 + (digitOf c : ℚ)) (a : ℚ) =
      ((ds.foldl (fun value c => value * 10 + digitOf c) a : Int) : ℚ) := by
  induction ds generalizing a with
  | nil => rfl
  | cons c t ih =>
      simp only [List.foldl_cons]
      rw [← ih]
      push_cast
      rfl

/-- Over a run of digits the first loop of `asDecimal` accumulates them and
goes on behind the run. -/
theorem asDecimalLoop_digits (str : List Char) (neg : Bool) (ds : List Char) :
    ∀ (fuel index : Nat) (num : ℚ) (rest : List Char), str.drop index = ds ++ rest →
      (∀ c ∈ ds, isdigit c = true) →
      asDecimalLoop str neg (fuel + ds.length) index num =
        asDecimalLoop str neg fuel (index + ds.length)
          (ds.foldl (fun (num : ℚ) c => num * 10 + (digitOf c : ℚ)) num) := by
  induction ds with
  | nil => intro fuel index num rest _ _; rfl
  | cons d ds ih =>
      intro fuel index num rest hdrop hd
      rw [List.cons_append] at hdrop
      obtain ⟨hc, hlt⟩ := charAt_of_drop str _ index d hdrop
      obtain ⟨h1, h2, _⟩ := ne_of_isdigit d (hd d (List.mem_cons_self d ds))
      have hrec := ih fuel (index + 1) (num * 10 + (digitOf d : ℚ)) rest
        (Parser.drop_succ_of_drop str _ index d hdrop)
        (fun c hc => hd c (List.mem_cons_of_mem d hc))
      have hfuel : fuel + (d :: ds).length = fuel + ds.length + 1 := by simp; omega
      rw [hfuel, asDecimalLoop, if_pos hlt, hc, if_neg h2, if_neg h1, hrec, List.foldl_cons,
        List.length_cons]
      congr 1
      omega

/-- Over fraction digits that run to the end of the string, the loop under
`decimalLabel` adds each digit at its decimal place and applies the sign. -/
theorem asDecimalDecimalLoop_digits (str : List Char) (neg : Bool) (fs : List Char) :
    ∀ (f : Char) (fuel index : Nat) (num : ℚ) (k : Nat), str.drop index = f :: fs →
      (∀ c ∈ f :: fs, isdigit c = true) → fs.length < fuel →
      asDecimalDecimalLoop str neg fuel index num (10 ^ k) =
        .ok (if neg then -(num + fractionSum k (f :: fs)) else num + fractionSum k (f :: fs)) := by
  induction fs with
  | nil =>
      intro f fuel index num k hdrop _ hfuel
      obtain ⟨g, rfl⟩ : ∃ g, fuel = g + 1 := ⟨fuel - 1, by simp at hfuel; omega⟩
      obtain ⟨hc, _⟩ := charAt_of_drop str _ index f hdrop
      have hlen := congrArg List.length hdrop
      simp only [List.length_drop, List.length_cons, List.length_nil] at hlen
      rw [asDecimalDecimalLoop, if_neg (by omega), hc]
      simp [fractionSum]
  | cons f2 fs ih =>
      intro f fuel index num k hdrop hd hfuel
      obtain ⟨g, rfl⟩ : ∃ g, fuel = g + 1 := ⟨fuel - 1, by simp at hfuel; omega⟩
      obtain ⟨hc, _⟩ := charAt_of_drop str _ index f hdrop
      obtain ⟨_, h2, _⟩ := ne_of_isdigit f (hd f (List.mem_cons_self f _))
      have hlen := congrArg List.length hdrop
      simp only [List.length_drop, List.length_cons] at hlen
      have hrec := ih f2 g (index + 1) (num + (digitOf f : ℚ) / 10 ^ k) (k + 1)
        (Parser.drop_succ_of_drop str _ index f hdrop)
        (fun c hc => hd c (List.mem_cons_of_mem f hc)) (by simp at hfuel; omega)
      rw [asDecimalDecimalLoop, if_pos (by omega), hc, if_neg h2, ← pow_succ, hrec]
      simp only [fractionSum, add_assoc]

end JsonNumber

/-- C14: for a numeral made of an optional minus sign, integer digits `I`, a
point and fraction digits `F`, both non-empty, `asDecimal` in exact arithmetic
returns the sign times the sum of the value of `I` and of `F_k / 10 ^ k` over
`k = 1, ..., |F|`. -/
theorem asDecimal_fraction (neg : Bool) (I F : List Char) (hI : I ≠ []) (hF : F ≠ [])
    (hdI : ∀ c ∈ I, isdigit c = true) (hdF : ∀ c ∈ F, isdigit c = true) :
    JsonNumber.asDecimal ⟨(if neg then ['-'] else []) ++ I ++ '.' :: F⟩ =
      .ok ((if neg then -1 else 1) * ((decimalValue I : ℚ) + fractionValue F)) := by
  obtain ⟨i0, I1, rfl⟩ := List.exists_cons_of_ne_nil hI
  obtain ⟨f0, F1, rfl⟩ := List.exists_cons_of_ne_nil hF
  have hi0 := hdI i0 (List.mem_cons_self i0 I1)
  have hI1 : ∀ c ∈ I1, isdigit c = true := fun c hc => hdI c (List.mem_cons_of_mem i0 hc)
  obtain ⟨_, _, hminus⟩ := JsonNumber.ne_of_isdigit i0 hi0
  have key : ∀ (str : List Char) (index : Nat), str.drop index = i0 :: (I1 ++ '.' :: f0 :: F1) →
      index + (i0 :: (I1 ++ '.' :: f0 :: F1)).length = str.length →
      JsonNumber.asDecimalLoop str neg (str.length + 1) (index + 1) (digitOf i0 : ℚ) =
        .ok (if neg then -((decimalValue (i0 :: I1) : ℚ) + fractionValue (f0 :: F1))
          else (decimalValue (i0 :: I1) : ℚ) + fractionValue (f0 :: F1)) := by
    intro str index hdrop hlen
    have hdrop1 := Parser.drop_succ_of_drop str _ index i0 hdrop
    have hloop := JsonNumber.asDecimalLoop_digits str neg I1 (str.length + 1 - I1.length)
      (index + 1) (digitOf i0 : ℚ) _ hdrop1 hI1
    have hfuel : str.length + 1 - I1.length + I1.length = str.length + 1 := by
      simp only [List.length_cons, List.length_append] at hlen
      omega
    have hdropdot : str.drop (index + 1 + I1.length) = '.' :: f0 :: F1 := by
      have h := congrArg (List.drop I1.length) hdrop1
      rw [List.drop_drop, List.drop_left] at h
      exact h
    obtain ⟨hcdot, hltdot⟩ := JsonNumber.charAt_of_drop str _ _ '.' hdropdot
    have hdec := JsonNumber.asDecimalDecimalLoop_digits str neg F1 f0 (str.length + 1)
      (index + 1 + I1.length + 1) (((decimalValue (i0 :: I1) : Int) : ℚ)) 1
      (Parser.drop_succ_of_drop str _ _ '.' hdropdot) hdF
      (by simp only [List.length_cons, List.length_append] at hlen; omega)
    obtain ⟨g, hg⟩ : ∃ g, str.length + 1 - I1.length = g + 1 :=
      ⟨str.length - I1.length, by
        simp only [List.length_cons, List.length_append] at hlen; omega⟩
    rw [← hfuel, hloop, hg, JsonNumber.asDecimalLoop, if_pos hltdot, hcdot,
      if_neg (by decide), if_pos rfl, JsonNumber.foldl_cast_digits]
    have hval : (I1.foldl (fun value c => value * 10 + digitOf c) (digitOf i0) : Int) =
        decimalValue (i0 :: I1) := by
      simp [decimalValue]
    rw [hval]
    rw [pow_one] at hdec
    rw [hdec]
    rfl
  cases neg with
  | true =>
      have h := key ('-' :: i0 :: (I1 ++ '.' :: f0 :: F1)) 1 rfl (by simp; omega)
      simp only [if_true, List.cons_append, List.nil_append, List.append_assoc,
        JsonNumber.asDecimal, charAt, List.getD_cons_zero, decide_True, List.getD_cons_succ,
        List.length_cons] at h ⊢
      rw [h]
      simp
  | false =>
      have h := key (i0 :: (I1 ++ '.' :: f0 :: F1)) 0 rfl (by simp)
      simp only [Bool.false_eq_true, if_false, List.cons_append, List.nil_append,
        List.append_assoc, JsonNumber.asDecimal, charAt, List.getD_cons_zero, hminus,
        decide_False, List.length_cons, zero_add] at h ⊢
      rw [h]
      simp

/-- C14 at `2.5` and `-12.345`, whose values are `5/2` and `-12345/1000`. -/
theorem asDecimal_fraction_witness :
    JsonNumber.asDecimal ⟨(if false then ['-'] else []) ++ "2".toList ++ '.' :: "5".toList⟩ =
        .ok ((if false then -1 else 1) *
          ((decimalValue "2".toList : ℚ) + fractionValue "5".toList)) ∧
      JsonNumber.asDecimal ⟨(if true then ['-'] else []) ++ "12".toList ++ '.' :: "345".toList⟩ =
        .ok ((if true then -1 else 1) *
          ((decimalValue "12".toList : ℚ) + fractionValue "345".toList)) ∧
      (1 : ℚ) * ((decimalValue "2".toList : ℚ) + fractionValue "5".toList) = 5 / 2 ∧
      (-1 : ℚ) * ((decimalValue "12".toList : ℚ) + fractionValue "345".toList) = -12345 / 1000 :=
  ⟨asDecimal_fraction false "2".toList "5".toList (by decide) (by decide) (by decide)
      (by decide),
    asDecimal_fraction true "12".toList "345".toList (by decide) (by decide) (by decide)
      (by decide),
    by with_unfolding_all rfl, by with_unfolding_all rfl⟩

/-! ## Number lexical form: the decimal conversion of digits and of exponents -/

namespace JsonNumber

/-- The loop under `decimalLabel` of `asDecimal` does not run out of budget. -/
theorem asDecimalDecimalLoop_ne_fuel (str : List Char) (neg : Bool) :
    ∀ (fuel index : Nat) (num unit : ℚ), 0 < fuel → str.length < fuel + index →
      asDecimalDecimalLoop str neg fuel index num unit ≠ .error .fuel := by
  intro fuel
  induction fuel with
  | zero => intro index num unit h; omega
  | succ f ih =>
      intro index num unit _ h
      rw [asDecimalDecimalLoop]
      split_ifs <;> first
        | exact ih _ _ _ (by omega) (by omega)
        | simp

/-- The first loop of `asDecimal` does not run out of budget. -/
theorem asDecimalLoop_ne_fuel (str : List Char) (neg : Bool) :
    ∀ (fuel index : Nat) (num : ℚ), 0 < fuel → str.length < fuel + index →
      asDecimalLoop str neg fuel index num ≠ .error .fuel := by
  intro fuel
  induction fuel with
  | zero => intro index num h; omega
  | succ f ih =>
      intro index num _ h
      rw [asDecimalLoop]
      split_ifs with h1 h2 h3
      · intro hc; cases hc
      · exact asDecimalDecimalLoop_ne_fuel str neg _ _ _ _ (by omega) (by omega)
      · exact ih _ _ (by omega) (by omega)
      · intro hc; cases hc

/-- The budget `asDecimal` gives its loops is never used up: `asDecimal` always
returns a number. -/
theorem asDecimal_ne_fuel (self : JsonNumber) : self.asDecimal ≠ .error .fuel := by
  unfold asDecimal
  exact asDecimalLoop_ne_fuel _ _ _ _ _ (by omega) (by omega)

/-- For digits alone, with or without a minus sign before them, `asDecimal`
returns the value of the digits: the sign is not applied. -/
theorem asDecimal_digits (neg : Bool) (d : List Char) (hne : d ≠ [])
    (hd : ∀ c ∈ d, isdigit c = true) :
    asDecimal ⟨(if neg then ['-'] else []) ++ d⟩ = .ok (decimalValue d : ℚ) := by
  obtain ⟨d0, d1, rfl⟩ := List.exists_cons_of_ne_nil hne
  have hd0 := hd d0 (List.mem_cons_self d0 d1)
  have hd1 : ∀ c ∈ d1, isdigit c = true := fun c hc => hd c (List.mem_cons_of_mem d0 hc)
  obtain ⟨_, _, hminus⟩ := ne_of_isdigit d0 hd0
  have key : ∀ (str : List Char) (index : Nat) (b : Bool), str.drop index = d0 :: d1 →
      index + (d0 :: d1).length = str.length →
      asDecimalLoop str b (str.length + 1) (index + 1) (digitOf d0 : ℚ) =
        .ok (decimalValue (d0 :: d1) : ℚ) := by
    intro str index b hdrop hlen
    have hdrop1 : str.drop (index + 1) = d1 ++ [] := by
      rw [List.append_nil]
      exact Parser.drop_succ_of_drop str _ index d0 hdrop
    have hloop := asDecimalLoop_digits str b d1 (str.length + 1 - d1.length)
      (index + 1) (digitOf d0 : ℚ) _ hdrop1 hd1
    simp only [List.length_cons] at hlen
    have hfuel : str.length + 1 - d1.length + d1.length = str.length + 1 := by omega
    obtain ⟨g, hg⟩ : ∃ g, str.length + 1 - d1.length = g + 1 :=
      ⟨str.length - d1.length, by omega⟩
    rw [← hfuel, hloop, hg, asDecimalLoop, if_neg (by omega), foldl_cast_digits]
    simp [decimalValue]
  cases neg with
  | true =>
      have h := key ('-' :: d0 :: d1) 1 true rfl (by simp; omega)
      simp only [if_true, List.cons_append, List.nil_append, asDecimal, charAt,
        List.getD_cons_zero, decide_True, List.getD_cons_succ, List.length_cons] at h ⊢
      rw [h]
  | false =>
      have h := key (d0 :: d1) 0 false rfl (by simp)
      simp only [Bool.false_eq_true, if_false, List.nil_append, asDecimal, charAt,
        List.getD_cons_zero, hminus, decide_False, List.length_cons, zero_add] at h ⊢
      rw [h]

end JsonNumber

namespace JsonNumber

/-- A decimal digit is not the plus sign. -/
theorem ne_plus_of_isdigit (c : Char) (h : isdigit c = true) : c ≠ '+' := by
  simp only [isdigit, Bool.and_eq_true, decide_eq_true_eq] at h
  rintro rfl
  revert h
  decide

/-- For mantissa digits `M`, with or without a minus sign before them, the
letter `e` and unsigned exponent digits `X`, `asDecimal` returns the signed
value of `M` raised to the power of the value of `X`. -/
theorem asDecimal_exponent (neg : Bool) (M X : List Char) (hM : M ≠ []) (hX : X ≠ [])
    (hdM : ∀ c ∈ M, isdigit c = true) (hdX : ∀ c ∈ X, isdigit c = true) :
    asDecimal ⟨(if neg then ['-'] else []) ++ M ++ 'e' :: X⟩ =
      .ok ((if neg then -(decimalValue M : ℚ) else (decimalValue M : ℚ)) ^ decimalValue X) := by
  obtain ⟨m0, M1, rfl⟩ := List.exists_cons_of_ne_nil hM
  obtain ⟨x0, X1, rfl⟩ := List.exists_cons_of_ne_nil hX
  have hm0 := hdM m0 (List.mem_cons_self m0 M1)
  have hM1 : ∀ c ∈ M1, isdigit c = true := fun c hc => hdM c (List.mem_cons_of_mem m0 hc)
  have hx0 := hdX x0 (List.mem_cons_self x0 X1)
  obtain ⟨_, _, hminus⟩ := ne_of_isdigit m0 hm0
  obtain ⟨_, _, hxminus⟩ := ne_of_isdigit x0 hx0
  have hxplus := ne_plus_of_isdigit x0 hx0
  have key : ∀ (str : List Char) (index : Nat),
      str.drop index = m0 :: (M1 ++ 'e' :: x0 :: X1) →
      index + (m0 :: (M1 ++ 'e' :: x0 :: X1)).length = str.length →
      asDecimalLoop str neg (str.length + 1) (index + 1) (digitOf m0 : ℚ) =
        .ok ((if neg then -(decimalValue (m0 :: M1) : ℚ) else (decimalValue (m0 :: M1) : ℚ)) ^
          decimalValue (x0 :: X1)) := by
    intro str index hdrop hlen
    have hdrop1 := Parser.drop_succ_of_drop str _ index m0 hdrop
    have hloop := asDecimalLoop_digits str neg M1 (str.length + 1 - M1.length)
      (index + 1) (digitOf m0 : ℚ) _ hdrop1 hM1
    simp only [List.length_cons, List.length_append] at hlen
    have hfuel : str.length + 1 - M1.length + M1.length = str.length + 1 := by omega
    have hdrope : str.drop (index + 1 + M1.length) = 'e' :: x0 :: X1 := by
      have h := congrArg (List.drop M1.length) hdrop1
      rw [List.drop_drop, List.drop_left] at h
      exact h
    obtain ⟨hce, hlte⟩ := charAt_of_drop str _ _ 'e' hdrope
    have hdropx := Parser.drop_succ_of_drop str _ _ 'e' hdrope
    obtain ⟨hcx, _⟩ := charAt_of_drop str _ _ x0 hdropx
    have hdropX1 := Parser.drop_succ_of_drop str _ _ x0 hdropx
    obtain ⟨g, hg⟩ : ∃ g, str.length + 1 - M1.length = g + 1 :=
      ⟨str.length - M1.length, by omega⟩
    rw [← hfuel, hloop, hg, asDecimalLoop, if_pos hlte, hce, if_pos rfl, foldl_cast_digits]
    have hval : (M1.foldl (fun value c => value * 10 + digitOf c) (digitOf m0) : Int) =
        decimalValue (m0 :: M1) := by
      simp [decimalValue]
    have hexp : (X1.foldl (fun value c => value * 10 + digitOf c) (digitOf x0) : Int) =
        decimalValue (x0 :: X1) := by
      simp [decimalValue]
    simp only [asDecimalExponentLabel, hcx, hxminus, hxplus, or_self, if_false, decide_False,
      Bool.false_eq_true, hdropX1, hval, hexp]
  cases neg with
  | true =>
      have h := key ('-' :: m0 :: (M1 ++ 'e' :: x0 :: X1)) 1 rfl (by simp; omega)
      simp only [if_true, List.cons_append, List.nil_append, List.append_assoc, asDecimal,
        charAt, List.getD_cons_zero, decide_True, List.getD_cons_succ, List.length_cons] at h ⊢
      rw [h]
  | false =>
      have h := key (m0 :: (M1 ++ 'e' :: x0 :: X1)) 0 rfl (by simp)
      simp only [Bool.false_eq_true, if_false, List.cons_append, List.nil_append,
        List.append_assoc, asDecimal, charAt, List.getD_cons_zero, hminus, decide_False,
        List.length_cons, zero_add] at h ⊢
      rw [h]

end JsonNumber

/-! ## Parser: whitespace-only input and unknown tokens -/

namespace Parser

/-- Over whitespace that runs to `end`, the loop of `findFirstNonWhitespace`
ends at `end` and returns the terminator. -/
theorem findFirstNonWhitespaceLoop_all (s : List Char) (ws : List Char) :
    ∀ (it fuel : Nat), it ≤ s.length → s.drop it = ws → (∀ x ∈ ws, isWhitespace x = true) →
      ws.length < fuel →
      findFirstNonWhitespaceLoop s fuel it = .ok (s.length, Char.ofNat 0) := by
  induction ws with
  | nil =>
      intro it fuel hle hdrop _ hfuel
      obtain ⟨f, rfl⟩ : ∃ f, fuel = f + 1 := ⟨fuel - 1, by simp at hfuel; omega⟩
      have hlen := congrArg List.length hdrop
      simp only [List.length_drop, List.length_nil] at hlen
      have hit : it = s.length := by omega
      rw [findFirstNonWhitespaceLoop, if_neg (by simpa using hit), hit]
  | cons w ws ih =>
      intro it fuel _ hdrop hws hfuel
      obtain ⟨f, rfl⟩ : ∃ f, fuel = f + 1 := ⟨fuel - 1, by simp at hfuel; omega⟩
      have hw : isWhitespace w = true := hws w (List.mem_cons_self w ws)
      have hne := ne_length_of_drop s _ it w hdrop
      have hlt := deref_ok_lt s it w (deref_of_drop s _ it w hdrop)
      have hrec := ih (it + 1) f (by omega) (drop_succ_of_drop s _ it w hdrop)
        (fun x hx => hws x (List.mem_cons_of_mem w hx)) (by simp at hfuel; omega)
      rw [findFirstNonWhitespaceLoop, if_pos hne, deref_of_drop s _ it w hdrop]
      simp only [hw, Bool.true_eq_false, if_false, hrec]

end Parser

/-- C20: for every input of whitespace characters only, the empty input
included, `parse` returns normally and the object is exactly as it was before
the call. -/
theorem parse_whitespace (ws : List Char) (obj : JsonObject)
    (hws : ∀ c ∈ ws, Parser.isWhitespace c = true) :
    Parser.parse obj (String.mk ws) = .ok obj := by
  have h := Parser.findFirstNonWhitespaceLoop_all ws ws 0 (ws.length + 1) (by omega)
    (by simp) hws (by omega)
  simp only [Parser.parse, String.length, String.toList, Parser.interpretValue,
    Parser.findFirstNonWhitespace, h, if_true]

/-- C20 at the empty input and at an input of the four whitespace characters,
parsed into a fresh value, which stays Null. -/
theorem parse_whitespace_witness :
    Parser.parse JsonObject.default (String.mk []) = .ok JsonObject.default ∧
      Parser.parse JsonObject.default (String.mk [' ', '\t', '\n', '\r']) =
        .ok JsonObject.default :=
  ⟨parse_whitespace [] JsonObject.default (by decide),
    parse_whitespace [' ', '\t', '\n', '\r'] JsonObject.default (by decide)⟩

/-- C16, as the claim states it, fails on an input whose first character is the
NUL character: NUL is not whitespace and is none of the characters that start
a production, and `parse` returns normally instead of throwing. -/
theorem parse_nul_returns :
    Parser.isWhitespace (Char.ofNat 0) = false ∧ isdigit (Char.ofNat 0) = false ∧
      Char.ofNat 0 ∉ ['\"', '\x7b', '[', '-', 't', 'f', 'n'] ∧
      Parser.parse JsonObject.default (String.mk [Char.ofNat 0, 'x']) =
        .ok JsonObject.default :=
  ⟨by decide, by decide, by decide, rfl⟩

/-- C16, amended: for every input whose first non-whitespace character exists,
is not the NUL character and is none of the quote, the opening brace, the
opening bracket, the minus sign, a decimal digit, `t`, `f` and `n`, `parse`
throws the `ParsingException` with the text `Unknown token`. -/
theorem parse_unknown_token (ws rest : List Char) (c : Char) (obj : JsonObject)
    (hws : ∀ x ∈ ws, Parser.isWhitespace x = true) (hc : Parser.isWhitespace c = false)
    (hnul : c ≠ Char.ofNat 0)
    (hstart : c ∉ ['\"', '\x7b', '[', '-', 't', 'f', 'n']) (hdigit : isdigit c = false) :
    Parser.parse obj (String.mk (ws ++ c :: rest)) =
      .error (.ParsingException "Unknown token") := by
  have hskip : Parser.findFirstNonWhitespace (ws ++ c :: rest) 0 = .ok (ws.length, c) := by
    have h := Parser.findFirstNonWhitespaceLoop_skip (ws ++ c :: rest) c rest hc ws 0
      ((ws ++ c :: rest).length + 1) (by simp) hws (by simp; omega)
    rw [zero_add] at h
    exact h
  have hd : Parser.deref (ws ++ c :: rest) ws.length = .ok c :=
    Parser.deref_of_drop _ rest _ c (by simp)
  simp only [List.mem_cons, List.mem_singleton, List.not_mem_nil, or_false, not_or] at hstart
  obtain ⟨h1, h2, h3, h4, h5, h6, h7⟩ := hstart
  simp only [Parser.parse, String.length, String.toList, Parser.interpretValue, hskip, hd]
  rw [if_neg hnul, if_neg h1, if_neg h2, if_neg h3, if_neg h4, if_neg h5, if_neg h6, if_neg h7,
    if_neg (by simp [hdigit])]

/-- C16, amended, at the inputs `x` and `  }`. -/
theorem parse_unknown_token_witness :
    Parser.parse JsonObject.default (String.mk ([] ++ 'x' :: [])) =
        .error (.ParsingException "Unknown token") ∧
      Parser.parse JsonObject.default (String.mk ([' ', ' '] ++ '\x7d' :: [])) =
        .error (.ParsingException "Unknown token") :=
  ⟨parse_unknown_token [] [] 'x' JsonObject.default (by decide) (by decide) (by decide)
      (by decide) (by decide),
    parse_unknown_token [' ', ' '] [] '\x7d' JsonObject.default (by decide) (by decide)
      (by decide) (by decide) (by decide)⟩

end Json
